import Mathlib

/-!
# go-web-cam: the MJPEG stream server (`server/server.go`)

A shallow embedding of `StreamServer`: the struct, the Go channels it points to,
and its operations (`Start`, `Stop`, `OpenCamera`, `captureFrames`,
`broadcastFrame`, `addClient`, `removeClient`, `serveStream`, the health handler).

Conventions.
* A `[]byte` is a `List Nat` of byte values; a nil slice is `none`.
* A channel value is an index into a list of channel objects (the Go heap).
  `make` appends a new object, so a new channel differs from every older one.
* Every operation that takes the server lock is one atomic step. `Start`
  releases the lock before `close(s.bound)` and `go`; it is taken as one step
  too, which is the interleaving in which nothing runs in between.
* A Go run-time panic (close of a closed or nil channel, send on a closed
  channel) is the result `none`.
-/

namespace GoWebCam

/-! ## Go channels -/

/-- An encoded frame, a Go `[]byte`. -/
abbrev Frame := List Nat

/-- A buffered `chan []byte`: the queued values (head is the oldest), the
capacity given to `make`, and whether `close` has been called. -/
structure Chan where
  buf : List Frame
  cap : Nat
  closed : Bool
deriving DecidableEq, Repr

/-- Go `close(ch)`: panics on a closed channel; queued values stay. -/
def Chan.close (ch : Chan) : Option Chan :=
  if ch.closed then none else some { ch with closed := true }

/-- Go `select { case ch <- v: ... default: ... }`.
`none`: panic (send on a closed channel). `some none`: the send cannot proceed
(the buffer is full), the `default` branch runs. `some (some ch1)`: sent. -/
def Chan.trySend (ch : Chan) (v : Frame) : Option (Option Chan) :=
  if ch.closed then none
  else if ch.buf.length < ch.cap then some (some { ch with buf := ch.buf ++ [v] })
  else some none

/-- Go `v, ok := <-ch` when it does not block: the oldest queued value and the
channel without it. `none` when the buffer is empty (the receive blocks on an
open channel and yields `ok = false` on a closed one). -/
def Chan.recv (ch : Chan) : Option (Frame × Chan) :=
  match ch.buf with
  | [] => none
  | v :: rest => some (v, { ch with buf := rest })

/-! ## Go maps used as sets (`map[chan []byte]bool`) -/

/-- The map statement `m[k] = true` on the key list of the map. -/
def mapInsert (m : List Nat) (k : Nat) : List Nat :=
  if k ∈ m then m else k :: m

/-- The builtin `delete(m, k)` on the key list of the map. -/
def mapDelete (m : List Nat) (k : Nat) : List Nat :=
  m.filter (fun x => x != k)

/-! ## The server state -/

/-- Where a `captureFrames` goroutine stands. -/
inductive LoopPhase where
  /-- launched by `go`, has not yet evaluated `s.bound` (line 105) -/
  | launched
  /-- blocked in `<-s.bound` on the given signal channel -/
  | waiting (sig : Nat)
  /-- inside the `for`/`select` loop (lines 114-146) -/
  | running
  /-- returned; the deferred function has run -/
  | exited
deriving DecidableEq, Repr

/-- One `go s.captureFrames(ctx)` goroutine. -/
structure Loop where
  ctx : Nat
  phase : LoopPhase
deriving DecidableEq, Repr

/-- The struct `StreamServer` (first six fields, in source order, without the
embedded lock) together with the run-time objects it refers to: the client
channels, the `chan struct{}` signal channels (`true` = closed), the capture
goroutines started so far and the contexts cancelled so far. -/
structure StreamServer where
  bound : Nat
  clients : List Nat
  frame : Option Frame
  webcam : Option Nat
  webcamErr : Option String
  isRunning : Bool
  chans : List Chan
  sigs : List Bool
  loops : List Loop
  cancelled : List Nat
deriving DecidableEq, Repr

/-- Source `NewStreamServer` (lines 29-34). -/
def NewStreamServer : StreamServer :=
  { bound := 0, clients := [], frame := none, webcam := none, webcamErr := none,
    isRunning := false, chans := [], sigs := [false], loops := [], cancelled := [] }

/-- Source `OpenCamera` (lines 37-56). `res` is what `gocv.OpenVideoCapture`
returns: `none` for success, `some e` for the error text. -/
def OpenCamera (s : StreamServer) (deviceID : Nat) (res : Option String) :
    StreamServer × Option String :=
  let s1 := { s with webcam := none }
  match res with
  | some e =>
    let err := "error opening video capture device: " ++ e
    ({ s1 with webcamErr := some err }, some err)
  | none => ({ s1 with webcam := some deviceID, webcamErr := none }, none)

/-- Source `Start` (lines 59-70): the guard on `isRunning`, then
`close(s.bound)` (a panic when that channel is already closed) and the launch of
a `captureFrames` goroutine with the given context. -/
def Start (s : StreamServer) (ctx : Nat) : Option StreamServer :=
  if s.isRunning then some s
  else
    let s1 := { s with isRunning := true }
    match s1.sigs[s1.bound]? with
    | some false =>
      some { s1 with sigs := s1.sigs.set s1.bound true,
                     loops := s1.loops ++ [{ ctx := ctx, phase := LoopPhase.launched }] }
    | _ => none

/-- The loop `for clientChan := range s.clients { close(clientChan) }` of
`Stop` (lines 89-91) over the keys in iteration order. -/
def closeAll : List Nat → List Chan → Option (List Chan)
  | [], chans => some chans
  | c :: cs, chans =>
    match chans[c]? with
    | none => none
    | some ch =>
      match ch.close with
      | none => none
      | some ch1 => closeAll cs (chans.set c ch1)

/-- Source `Stop` (lines 73-94). -/
def Stop (s : StreamServer) : Option StreamServer :=
  if !s.isRunning then some s
  else
    let s1 := { s with isRunning := false, webcam := none }
    match closeAll s1.clients s1.chans with
    | none => none
    | some chans1 =>
      some { s1 with chans := chans1, clients := [],
                     bound := s1.sigs.length, sigs := s1.sigs ++ [false] }

/-- The body of the `range` loop of `broadcastFrame` (lines 156-165) over the
keys still to visit. Deleting the current key during a Go map iteration is
allowed and does not disturb the other keys. -/
def broadcastLoop (f : Frame) : List Nat → StreamServer → Option StreamServer
  | [], s => some s
  | client :: rest, s =>
    match s.chans[client]? with
    | none => none
    | some ch =>
      match ch.trySend f with
      | none => none
      | some (some ch1) => broadcastLoop f rest { s with chans := s.chans.set client ch1 }
      | some none =>
        match ch.close with
        | none => none
        | some ch1 =>
          broadcastLoop f rest
            { s with clients := mapDelete s.clients client, chans := s.chans.set client ch1 }

/-- Source `broadcastFrame` (lines 151-166). -/
def broadcastFrame (s : StreamServer) : Option StreamServer :=
  match s.frame with
  | none => some s
  | some f => if s.clients.length = 0 then some s else broadcastLoop f s.clients s

/-- Source `addClient` (lines 169-189): the new state and the returned channel. -/
def addClient (s : StreamServer) : Option (StreamServer × Nat) :=
  let clientChan := s.chans.length
  let ch : Chan := { buf := [], cap := 5, closed := false }
  let s1 := { s with chans := s.chans ++ [ch], clients := mapInsert s.clients clientChan }
  match s1.frame with
  | none => some (s1, clientChan)
  | some f =>
    match ch.trySend f with
    | none => none
    | some (some ch1) => some ({ s1 with chans := s1.chans.set clientChan ch1 }, clientChan)
    | some none => some (s1, clientChan)

/-- Source `removeClient` (lines 192-201). -/
def removeClient (s : StreamServer) (clientChan : Nat) : Option StreamServer :=
  if clientChan ∈ s.clients then
    match s.chans[clientChan]? with
    | none => none
    | some ch =>
      match ch.close with
      | none => none
      | some ch1 =>
        some { s with clients := mapDelete s.clients clientChan,
                      chans := s.chans.set clientChan ch1 }
  else some s

/-- What the camera library gives on one tick: `webcam.Read` fails or the image
is empty; `gocv.IMEncode` fails with an error text; or the encoded bytes. -/
inductive Capture where
  | readFail
  | encodeFail (err : String)
  | encoded (bytes : Frame)
deriving DecidableEq, Repr

/-- Lines 141-142 of `captureFrames`: `s.frame = buf.GetBytes()` followed by
`s.broadcastFrame()`. -/
def publish (s : StreamServer) (bytes : Frame) : Option StreamServer :=
  broadcastFrame { s with frame := some bytes }

/-- Successive `publish` calls, one per frame, stopping at the first panic. -/
def publishAll : StreamServer → List Frame → Option StreamServer
  | s, [] => some s
  | s, f :: fs =>
    match publish s f with
    | none => none
    | some s1 => publishAll s1 fs

/-- The `case <-ticker.C` branch of `captureFrames` (lines 119-144). -/
def captureTick (s : StreamServer) (r : Capture) : Option StreamServer :=
  match s.webcam with
  | none => some s
  | some _ =>
    match r with
    | Capture.readFail => some { s with webcamErr := some "failed to read frame from webcam" }
    | Capture.encodeFail e => some { s with webcamErr := some ("failed to encode frame: " ++ e) }
    | Capture.encoded bytes => publish s bytes

/-- The deferred function of `captureFrames` (lines 98-102). -/
def captureExit (s : StreamServer) : StreamServer :=
  { s with isRunning := false }

/-- What the `/health` handler answers (lines 311-333). -/
inductive Health where
  | notRunning
  | error (message : String)
  | ok (clients : Nat)
deriving DecidableEq, Repr

/-- The `/health` handler (lines 311-333). -/
def health (s : StreamServer) : Health :=
  if !s.isRunning then Health.notRunning
  else
    match s.webcamErr with
    | some e => Health.error e
    | none => Health.ok s.clients.length

/-! ## The stream session (`serveStream`) -/

/-- The bytes of a string literal of the source. All literals used are ASCII,
so every character is one byte, its code point. -/
def bytesOf (str : String) : List Nat :=
  str.toList.map Char.toNat

/-- An `http.ResponseWriter` as the handler sees it: the header map, the status
code once written, the bytes written to the body, the results of the coming
`Write` calls (`true` = no error; when the list runs out, writes succeed), and
whether the writer is an `http.Flusher`. -/
structure ResponseWriter where
  header : List (String × String)
  status : Option Nat
  body : List Nat
  writeResults : List Bool
  isFlusher : Bool
deriving DecidableEq, Repr

/-- Go `w.Header().Set(key, value)`: replaces the values of `key`. -/
def ResponseWriter.setHeader (w : ResponseWriter) (key value : String) : ResponseWriter :=
  { w with header := (key, value) :: w.header.filter (fun p => p.1 != key) }

/-- Go `w.Write(p)`: the writer afterwards and whether the error is nil. A
failed write is taken to add nothing to the body. -/
def ResponseWriter.Write (w : ResponseWriter) (p : List Nat) : ResponseWriter × Bool :=
  match w.writeResults with
  | [] => ({ w with body := w.body ++ p }, true)
  | true :: rest => ({ w with body := w.body ++ p, writeResults := rest }, true)
  | false :: rest => ({ w with writeResults := rest }, false)

/-- Go `http.Error(w, msg, code)`: a plain-text reply with the given status. -/
def httpError (w : ResponseWriter) (msg : String) (code : Nat) : ResponseWriter :=
  let w1 := (w.setHeader "Content-Type" "text/plain; charset=utf-8").setHeader
    "X-Content-Type-Options" "nosniff"
  { w1 with status := some code, body := w1.body ++ bytesOf (msg ++ "\n") }

/-- What one pass of the `select` of `serveStream` finds (lines 232-235): the
request context is done, a frame arrives on the channel, or the channel is
closed and drained. -/
inductive SelectEvent where
  | disconnected
  | frame (f : Frame)
  | closed
deriving DecidableEq, Repr

/-- The `for`/`select` loop of `serveStream` (lines 231-263) over the events the
session meets, in order. When the events run out the session is blocked in
`select`. -/
def streamLoop : ResponseWriter → List SelectEvent → ResponseWriter
  | w, [] => w
  | w, SelectEvent.disconnected :: _ => w
  | w, SelectEvent.closed :: _ => w
  | w, SelectEvent.frame f :: rest =>
    let r1 := w.Write (bytesOf "--frame\r\nContent-Type: image/jpeg\r\n\r\n")
    if !r1.2 then r1.1
    else
      let r2 := r1.1.Write f
      if !r2.2 then r2.1
      else
        let r3 := r2.1.Write (bytesOf "\r\n")
        if !r3.2 then r3.1
        else if r3.1.isFlusher then streamLoop r3.1 rest
        else r3.1

/-- Source `serveStream` (lines 204-264), the side that writes the response. The
registration of the session's channel (`addClient`, deferred `removeClient`) is
in `step`; `events` is what the session then meets on that channel and on the
request context. -/
def serveStream (s : StreamServer) (w : ResponseWriter) (events : List SelectEvent) :
    ResponseWriter :=
  match s.webcam with
  | none => httpError w "Camera not available" 503
  | some _ =>
    let w1 := w.setHeader "Content-Type" "multipart/x-mixed-replace; boundary=frame"
    let w2 := w1.setHeader "Cache-Control" "no-cache, no-store, must-revalidate"
    let w3 := w2.setHeader "Connection" "close"
    streamLoop w3 events

/-- The frames a session takes from its channel: those that come before the
first disconnect or close; only the first of them when the writer is not an
`http.Flusher` (line 260 returns after the first frame). -/
def framesTaken (isFlusher : Bool) : List SelectEvent → List Frame
  | SelectEvent.frame f :: rest => if isFlusher then f :: framesTaken isFlusher rest else [f]
  | _ => []

/-- One part of the multipart stream, as the wire format prescribes it. -/
def part (f : Frame) : List Nat :=
  bytesOf "--frame\r\n" ++ bytesOf "Content-Type: image/jpeg\r\n" ++ bytesOf "\r\n" ++ f ++
    bytesOf "\r\n"

/-- The parts for a list of frames, one after the other. -/
def wire : List Frame → List Nat
  | [] => []
  | f :: fs => part f ++ wire fs

/-! ## Operations as steps of one state machine -/

/-- The events that change the server state. `tick`, `loopBind` and `loopExit`
are steps of the capture goroutine with the given index in `loops`; `recv` is a
stream session receiving from its channel (line 235); `cancel` is the caller
cancelling a context it passed to `Start`. -/
inductive Op where
  | addClient
  | removeClient (clientChan : Nat)
  | broadcastFrame
  | stop
  | start (ctx : Nat)
  | openCamera (deviceID : Nat) (res : Option String)
  | tick (i : Nat) (r : Capture)
  | recv (clientChan : Nat)
  | cancel (ctx : Nat)
  | loopBind (i : Nat)
  | loopExit (i : Nat)
deriving DecidableEq, Repr

/-- Goroutine `i` moves to phase `p`. -/
def setPhase (s : StreamServer) (i : Nat) (ctx : Nat) (p : LoopPhase) : StreamServer :=
  { s with loops := s.loops.set i { ctx := ctx, phase := p } }

/-- Line 105, `<-s.bound`: the goroutine reads `s.bound` once and waits until
that channel is closed. -/
def loopBind (s : StreamServer) (i : Nat) : StreamServer :=
  match s.loops[i]? with
  | some { ctx := ctx, phase := LoopPhase.launched } =>
    if s.sigs[s.bound]? = some true then setPhase s i ctx LoopPhase.running
    else setPhase s i ctx (LoopPhase.waiting s.bound)
  | some { ctx := ctx, phase := LoopPhase.waiting b } =>
    if s.sigs[b]? = some true then setPhase s i ctx LoopPhase.running else s
  | _ => s

/-- Lines 116-117 and the deferred function: a running goroutine whose context
is cancelled returns and clears `isRunning`. -/
def loopExit (s : StreamServer) (i : Nat) : StreamServer :=
  match s.loops[i]? with
  | some { ctx := ctx, phase := LoopPhase.running } =>
    if ctx ∈ s.cancelled then setPhase (captureExit s) i ctx LoopPhase.exited else s
  | _ => s

/-- A stream session takes the next queued frame from its channel, if any. -/
def recvStep (s : StreamServer) (clientChan : Nat) : StreamServer :=
  match s.chans[clientChan]? with
  | none => s
  | some ch =>
    match ch.recv with
    | none => s
    | some (_, ch1) => { s with chans := s.chans.set clientChan ch1 }

/-- Whether goroutine `i` is inside its capture loop. -/
def loopRunning (s : StreamServer) (i : Nat) : Bool :=
  match s.loops[i]? with
  | some l => decide (l.phase = LoopPhase.running)
  | none => false

/-- One event. An event that is not enabled (a goroutine step in the wrong
phase, a receive from an empty channel) leaves the state as it is; `none` is a
Go panic. -/
def step (s : StreamServer) : Op → Option StreamServer
  | Op.addClient => (addClient s).map Prod.fst
  | Op.removeClient c => removeClient s c
  | Op.broadcastFrame => broadcastFrame s
  | Op.stop => Stop s
  | Op.start ctx => Start s ctx
  | Op.openCamera d res => some (OpenCamera s d res).1
  | Op.tick i r => if loopRunning s i then captureTick s r else some s
  | Op.recv c => some (recvStep s c)
  | Op.cancel ctx => some { s with cancelled := ctx :: s.cancelled }
  | Op.loopBind i => some (loopBind s i)
  | Op.loopExit i => some (loopExit s i)

/-- A sequence of events, stopping at the first panic. -/
def run : StreamServer → List Op → Option StreamServer
  | s, [] => some s
  | s, op :: ops =>
    match step s op with
    | none => none
    | some s1 => run s1 ops

/-- The number of capture goroutines that have been launched and have not
returned. -/
def activeLoops (s : StreamServer) : Nat :=
  (s.loops.filter (fun l => decide (l.phase ≠ LoopPhase.exited))).length

/-! ## Observed history -/

/-- What an outside observer has seen: the frames the capture loop stored in
`s.frame` (line 141), oldest first, and per channel the frames its session has
received so far. -/
structure Hist where
  published : List Frame
  dequeued : Nat → List Frame

/-- The empty history. -/
def Hist.empty : Hist := { published := [], dequeued := fun _ => [] }

/-- The frame event `op` stores in `s.frame` at line 141, if it does: a capture
tick of a running goroutine, with a camera bound, that read and encoded a frame. -/
def publishedBy (s : StreamServer) : Op → List Frame
  | Op.tick i (Capture.encoded bytes) =>
    if loopRunning s i && s.webcam.isSome then [bytes] else []
  | _ => []

/-- The channel and frame a session receives by event `op`, if it does. -/
def receivedBy (s : StreamServer) : Op → Option (Nat × Frame)
  | Op.recv c =>
    match s.chans[c]? with
    | none => none
    | some ch =>
      match ch.recv with
      | none => none
      | some (v, _) => some (c, v)
  | _ => none

/-- The history after event `op` happens in state `s`. -/
def observe (s : StreamServer) (h : Hist) (op : Op) : Hist :=
  { published := h.published ++ publishedBy s op
    dequeued :=
      match receivedBy s op with
      | none => h.dequeued
      | some (c, v) => fun d => if d = c then h.dequeued c ++ [v] else h.dequeued d }

/-- Run events, keeping the history alongside the state. -/
def runObs : StreamServer → Hist → List Op → Option (StreamServer × Hist)
  | s, h, [] => some (s, h)
  | s, h, op :: ops =>
    match step s op with
    | none => none
    | some s1 => runObs s1 (observe s h op) ops

/-! ## Well-formed states -/

/-- Channel `c` exists and is open. -/
def isOpen (chans : List Chan) (c : Nat) : Bool :=
  match chans[c]? with
  | some ch => !ch.closed
  | none => false

/-- Channel `c` exists and its buffer is full. -/
def isFull (chans : List Chan) (c : Nat) : Bool :=
  match chans[c]? with
  | some ch => !decide (ch.buf.length < ch.cap)
  | none => false

/-- The registry is a set (map keys are unique) of open channels. -/
def wf (s : StreamServer) : Prop :=
  s.clients.Nodup ∧ ∀ c ∈ s.clients, isOpen s.chans c = true

instance (s : StreamServer) : Decidable (wf s) := by
  unfold wf; infer_instance

/-- Every channel that exists was made by `addClient` (capacity 5, never
over-full) and is registered exactly when it is open. -/
def registryInv (s : StreamServer) : Prop :=
  s.clients.Nodup ∧
  (∀ c ∈ s.clients, c < s.chans.length) ∧
  ∀ c ch, s.chans[c]? = some ch →
    ch.cap = 5 ∧ ch.buf.length ≤ 5 ∧ (c ∈ s.clients ↔ ch.closed = false)

/-- From `s` to `s1`, a channel that exists and is not registered stays
unregistered, keeps its closed flag, and nothing is added to its queue (its
queue can only lose frames at the head, to its receiver). -/
def removedStay (s s1 : StreamServer) : Prop :=
  ∀ c ch, s.chans[c]? = some ch → c ∉ s.clients →
    c ∉ s1.clients ∧ ∃ ch1, s1.chans[c]? = some ch1 ∧ ch1.closed = ch.closed ∧ ch1.buf <:+ ch.buf

/-- From `s` to `s1`, every channel that leaves the registry was open and is
closed in that same step, its queue unchanged. -/
def closedOnRemoval (s s1 : StreamServer) : Prop :=
  ∀ c ∈ s.clients, c ∉ s1.clients →
    ∃ ch, s.chans[c]? = some ch ∧ ch.closed = false ∧
      s1.chans[c]? = some { ch with closed := true }

/-- The queue a new subscriber starts with: the latest frame, if there is one. -/
def primed (frame : Option Frame) : List Frame :=
  match frame with
  | some f => [f]
  | none => []

/-- The queue of channel `c`, empty when the channel does not exist. -/
def bufOf (s : StreamServer) (c : Nat) : List Frame :=
  match s.chans[c]? with
  | some ch => ch.buf
  | none => []

/-- How one event `op` from `s` to `s1` moves the latest frame and the queues:
a new latest frame is the one published by `op`; channels do not disappear; a
queue either loses its head to its receiver, or is unchanged, or gains the
frame published by `op` at its tail, or is the primed queue of a new channel. -/
def BufStep (s s1 : StreamServer) (op : Op) : Prop :=
  (∀ f, s1.frame = some f → s.frame = some f ∨ f ∈ publishedBy s op) ∧
  (∀ c : Nat, s1.chans[c]? = none → s.chans[c]? = none) ∧
  ∀ c : Nat, (∃ v, receivedBy s op = some (c, v) ∧ bufOf s c = v :: bufOf s1 c) ∨
       ((∀ v, receivedBy s op ≠ some (c, v)) ∧
         (bufOf s1 c = bufOf s c ∨ bufOf s1 c = bufOf s c ++ publishedBy s op ∨
          (s.chans[c]? = none ∧ bufOf s1 c = primed s.frame)))

/-- The history matches the state: the latest frame was published, channels
that do not exist have delivered nothing, and for every channel the frames
received so far followed by the queued frames are a subsequence of the
published frames. -/
def histInv (s : StreamServer) (h : Hist) : Prop :=
  (∀ f, s.frame = some f → f ∈ h.published) ∧
  (∀ c : Nat, s.chans[c]? = none → h.dequeued c = []) ∧
  ∀ c : Nat, (h.dequeued c ++ bufOf s c).Sublist h.published

/-- States `s` and `s1` agree on every field other than `clients` and `chans`. -/
def sameOutsideRegistry (s s1 : StreamServer) : Prop :=
  s1.bound = s.bound ∧ s1.frame = s.frame ∧ s1.webcam = s.webcam ∧
  s1.webcamErr = s.webcamErr ∧ s1.isRunning = s.isRunning ∧ s1.sigs = s.sigs ∧
  s1.loops = s.loops ∧ s1.cancelled = s.cancelled

/-! ## Sample states and traces -/

/-- A state with two subscribers: channel 0 is full, channel 1 holds one frame. -/
def twoSubscribers : StreamServer :=
  { NewStreamServer with
    clients := [1, 0]
    frame := some [9]
    webcam := some 0
    chans := [{ buf := [[1], [2], [3], [4], [5]], cap := 5, closed := false },
              { buf := [[5]], cap := 5, closed := false }] }

/-- A camera is open, one viewer is attached, `Start` has not been called. -/
def idleWithViewer : StreamServer :=
  { NewStreamServer with
    clients := [0]
    webcam := some 0
    chans := [{ buf := [], cap := 5, closed := false }] }

/-- A trace: the camera opens, the server starts, a viewer attaches and stalls
for six frames (it is evicted by the sixth), a second viewer attaches and
receives one frame. -/
def sampleTrace : List Op :=
  [Op.openCamera 0 none, Op.start 7, Op.loopBind 0, Op.addClient,
   Op.tick 0 (Capture.encoded [1]), Op.tick 0 (Capture.encoded [2]),
   Op.tick 0 (Capture.encoded [3]), Op.tick 0 (Capture.encoded [4]),
   Op.tick 0 (Capture.encoded [5]), Op.addClient,
   Op.tick 0 (Capture.encoded [6]), Op.recv 1]

/-- The state `sampleTrace` leads to. -/
def sampleState : StreamServer :=
  { bound := 0, clients := [1], frame := some [6], webcam := some 0, webcamErr := none,
    isRunning := true,
    chans := [{ buf := [[1], [2], [3], [4], [5]], cap := 5, closed := true },
              { buf := [[6]], cap := 5, closed := false }],
    sigs := [true], loops := [{ ctx := 7, phase := LoopPhase.running }], cancelled := [] }

/-- A writer with nothing written yet that accepts every write and can flush. -/
def freshWriter : ResponseWriter :=
  { header := [], status := none, body := [], writeResults := [true, true, true],
    isFlusher := true }

/-! ## Lemmas on the broadcast loop -/

theorem isOpen_iff (chans : List Chan) (c : Nat) :
    isOpen chans c = true ↔ ∃ ch, chans[c]? = some ch ∧ ch.closed = false := by
  unfold isOpen
  cases h : chans[c]? with
  | none => simp
  | some ch => simp

theorem mem_mapDelete (m : List Nat) (k x : Nat) :
    x ∈ mapDelete m k ↔ x ∈ m ∧ x ≠ k := by
  simp [mapDelete]

theorem mapDelete_sublist (m : List Nat) (k : Nat) : (mapDelete m k).Sublist m := by
  simp [mapDelete]

theorem broadcastLoop_spec (f : Frame) (cs : List Nat) : ∀ (s : StreamServer),
    cs.Nodup → (∀ c ∈ cs, isOpen s.chans c = true) →
    ∃ s1, broadcastLoop f cs s = some s1 ∧
      sameOutsideRegistry s s1 ∧
      s1.chans.length = s.chans.length ∧
      s1.clients.Sublist s.clients ∧
      (∀ c, c ∉ cs → s1.chans[c]? = s.chans[c]?) ∧
      (∀ c ∈ cs, ∀ ch, s.chans[c]? = some ch →
         (ch.buf.length < ch.cap → s1.chans[c]? = some { ch with buf := ch.buf ++ [f] }) ∧
         (¬ ch.buf.length < ch.cap → s1.chans[c]? = some { ch with closed := true })) ∧
      (∀ x, x ∈ s1.clients ↔ x ∈ s.clients ∧ ¬ (x ∈ cs ∧ isFull s.chans x = true)) := by
  induction cs with
  | nil =>
    intro s _ _
    exact ⟨s, rfl, ⟨rfl, rfl, rfl, rfl, rfl, rfl, rfl, rfl⟩, rfl, List.Sublist.refl _, fun _ _ => rfl, by simp, by simp⟩
  | cons c rest ih =>
    intro s hnd hopen
    have hc_notin : c ∉ rest := (List.nodup_cons.mp hnd).1
    have hrest : rest.Nodup := (List.nodup_cons.mp hnd).2
    obtain ⟨ch, hch, hclosed⟩ := (isOpen_iff _ _).mp (hopen c (List.mem_cons_self _ _))
    have hlt : c < s.chans.length := by
      rcases Nat.lt_or_ge c s.chans.length with h | h
      · exact h
      · rw [List.getElem?_eq_none h] at hch; cases hch
    -- channels of `rest` are untouched by the update at `c`
    have hkeep : ∀ (ch1 : Chan) (x : Nat), x ≠ c → (s.chans.set c ch1)[x]? = s.chans[x]? := by
      intro ch1 x hx
      exact List.getElem?_set_ne (Ne.symm hx)
    have hopen_rest : ∀ (ch1 : Chan), ∀ x ∈ rest, isOpen (s.chans.set c ch1) x = true := by
      intro ch1 x hx
      have hxc : x ≠ c := fun e => hc_notin (e ▸ hx)
      have := hopen x (List.mem_cons_of_mem _ hx)
      unfold isOpen at this ⊢
      rw [hkeep ch1 x hxc]; exact this
    have hfull_rest : ∀ (ch1 : Chan) (x : Nat), x ≠ c →
        isFull (s.chans.set c ch1) x = isFull s.chans x := by
      intro ch1 x hx
      unfold isFull
      rw [hkeep ch1 x hx]
    by_cases hroom : ch.buf.length < ch.cap
    · -- the send succeeds
      obtain ⟨s1, hrun, hrec, hlen, hsub, hout, hin, hmem⟩ :=
        ih { s with chans := s.chans.set c { ch with buf := ch.buf ++ [f] } } hrest
          (hopen_rest _)
      refine ⟨s1, ?_, ?_, ?_, ?_, ?_, ?_, ?_⟩
      · simp only [broadcastLoop, hch, Chan.trySend, hclosed, hroom]
        simpa [hclosed] using hrun
      · exact hrec
      · simpa using hlen
      · simpa using hsub
      · intro x hx
        have hxc : x ≠ c := fun e => hx (e ▸ List.mem_cons_self _ _)
        have hxr : x ∉ rest := fun e => hx (List.mem_cons_of_mem _ e)
        rw [hout x hxr]; exact hkeep _ x hxc
      · intro x hx chx hchx
        rcases List.mem_cons.mp hx with rfl | hxr
        · have e : chx = ch := by rw [hch] at hchx; exact (Option.some.inj hchx).symm
          subst e
          constructor
          · intro _
            rw [hout x hc_notin]
            simp [List.getElem?_set_self, hlt]
          · intro h; exact absurd hroom h
        · have hxc : x ≠ c := fun e => hc_notin (e ▸ hxr)
          exact hin x hxr chx (by simpa [hkeep _ x hxc] using hchx)
      · intro x
        rw [hmem x]
        simp only [List.mem_cons]
        constructor
        · rintro ⟨hx, hn⟩
          refine ⟨hx, ?_⟩
          rintro ⟨hxe | hxr, hfull⟩
          · subst hxe
            simp [isFull, hch, hroom] at hfull
          · have hxc : x ≠ c := fun e => hc_notin (e ▸ hxr)
            exact hn ⟨hxr, by rw [hfull_rest _ x hxc]; exact hfull⟩
        · rintro ⟨hx, hn⟩
          refine ⟨hx, ?_⟩
          rintro ⟨hxr, hfull⟩
          have hxc : x ≠ c := fun e => hc_notin (e ▸ hxr)
          exact hn ⟨Or.inr hxr, by rw [← hfull_rest _ x hxc]; exact hfull⟩
    · -- the buffer is full: evict
      obtain ⟨s1, hrun, hrec, hlen, hsub, hout, hin, hmem⟩ :=
        ih { s with clients := mapDelete s.clients c,
                    chans := s.chans.set c { ch with closed := true } } hrest
          (hopen_rest _)
      refine ⟨s1, ?_, ?_, ?_, ?_, ?_, ?_, ?_⟩
      · simp [broadcastLoop, hch, Chan.trySend, Chan.close, hclosed, hroom, hrun]
      · exact hrec
      · simpa using hlen
      · exact hsub.trans (mapDelete_sublist _ _)
      · intro x hx
        have hxc : x ≠ c := fun e => hx (e ▸ List.mem_cons_self _ _)
        have hxr : x ∉ rest := fun e => hx (List.mem_cons_of_mem _ e)
        rw [hout x hxr]; exact hkeep _ x hxc
      · intro x hx chx hchx
        rcases List.mem_cons.mp hx with rfl | hxr
        · have e : chx = ch := by rw [hch] at hchx; exact (Option.some.inj hchx).symm
          subst e
          constructor
          · intro h; exact absurd h hroom
          · intro _
            rw [hout x hc_notin]
            simp [List.getElem?_set_self, hlt]
        · have hxc : x ≠ c := fun e => hc_notin (e ▸ hxr)
          exact hin x hxr chx (by simpa [hkeep _ x hxc] using hchx)
      · intro x
        rw [hmem x]
        simp only [List.mem_cons, mem_mapDelete]
        constructor
        · rintro ⟨⟨hx, hxc⟩, hn⟩
          refine ⟨hx, ?_⟩
          rintro ⟨hxe | hxr, hfull⟩
          · exact hxc hxe
          · exact hn ⟨hxr, by rw [hfull_rest _ x hxc]; exact hfull⟩
        · rintro ⟨hx, hn⟩
          have hxc : x ≠ c := by
            rintro rfl
            exact hn ⟨Or.inl rfl, by simp [isFull, hch, hroom]⟩
          refine ⟨⟨hx, hxc⟩, ?_⟩
          rintro ⟨hxr, hfull⟩
          exact hn ⟨Or.inr hxr, by rw [← hfull_rest _ x hxc]; exact hfull⟩

/-- The loop characterisation lifted to `broadcastFrame` with a frame present. -/
theorem broadcastFrame_spec (s : StreamServer) (f : Frame)
    (hf : s.frame = some f) (hwf : wf s) :
    ∃ s1, broadcastFrame s = some s1 ∧
      sameOutsideRegistry s s1 ∧
      s1.chans.length = s.chans.length ∧
      s1.clients.Sublist s.clients ∧
      (∀ c, c ∉ s.clients → s1.chans[c]? = s.chans[c]?) ∧
      (∀ c ∈ s.clients, ∀ ch, s.chans[c]? = some ch →
         (ch.buf.length < ch.cap → s1.chans[c]? = some { ch with buf := ch.buf ++ [f] }) ∧
         (¬ ch.buf.length < ch.cap → s1.chans[c]? = some { ch with closed := true })) ∧
      (∀ x, x ∈ s1.clients ↔ x ∈ s.clients ∧ isFull s.chans x = false) := by
  by_cases hempty : s.clients.length = 0
  · have hnil : s.clients = [] := List.length_eq_zero.mp hempty
    refine ⟨s, by simp [broadcastFrame, hf, hempty], ⟨rfl, rfl, rfl, rfl, rfl, rfl, rfl, rfl⟩,
      rfl, List.Sublist.refl _, fun _ _ => rfl, ?_, ?_⟩
    · intro c hc; rw [hnil] at hc; cases hc
    · intro x; simp [hnil]
  · obtain ⟨s1, hrun, hsame, hlen, hsub, hout, hin, hmem⟩ :=
      broadcastLoop_spec f s.clients s hwf.1 hwf.2
    refine ⟨s1, by simp [broadcastFrame, hf, hempty, hrun], hsame, hlen, hsub, hout, hin, ?_⟩
    intro x
    rw [hmem x]
    constructor
    · rintro ⟨hx, hn⟩
      refine ⟨hx, ?_⟩
      cases hfull : isFull s.chans x with
      | false => rfl
      | true => exact absurd ⟨hx, hfull⟩ hn
    · rintro ⟨hx, hfull⟩
      exact ⟨hx, fun h => by rw [hfull] at h; exact Bool.noConfusion h.2⟩

/-! ## C1: what one broadcast does to each subscriber -/

/-- C1. In a state whose latest frame is `f` and whose registry is a set of open
channels, `broadcastFrame` returns (no panic) and, for every registered channel
of capacity 5: with fewer than 5 queued frames, `f` is appended at the tail and
the channel stays registered and open; with 5 queued frames, the channel is
removed from the registry and closed with its queued frames unchanged.
Unregistered channels and all other fields are untouched. The effect on one
subscriber depends only on its own queue and `f`: in any other such state `t`
with the same frame, where the subscriber has the same queue, it gets the same
result, whatever happens to the other subscribers. -/
theorem broadcastFrame_per_subscriber (s : StreamServer) (f : Frame)
    (hf : s.frame = some f) (hwf : wf s) :
    ∃ s1, broadcastFrame s = some s1 ∧
      sameOutsideRegistry s s1 ∧
      (∀ c ∈ s.clients, ∀ ch, s.chans[c]? = some ch → ch.cap = 5 →
         (ch.buf.length < 5 →
            s1.chans[c]? = some { buf := ch.buf ++ [f], cap := 5, closed := false } ∧
            c ∈ s1.clients) ∧
         (ch.buf.length = 5 →
            s1.chans[c]? = some { buf := ch.buf, cap := 5, closed := true } ∧
            c ∉ s1.clients)) ∧
      (∀ c, c ∉ s.clients → s1.chans[c]? = s.chans[c]? ∧ c ∉ s1.clients) ∧
      (∀ t : StreamServer, t.frame = some f → wf t →
         ∀ c, c ∈ s.clients → c ∈ t.clients → t.chans[c]? = s.chans[c]? →
           ∃ t1, broadcastFrame t = some t1 ∧ t1.chans[c]? = s1.chans[c]? ∧
             (c ∈ t1.clients ↔ c ∈ s1.clients)) := by
  obtain ⟨s1, hrun, hsame, _, hsub, hout, hin, hmem⟩ := broadcastFrame_spec s f hf hwf
  refine ⟨s1, hrun, hsame, ?_, ?_, ?_⟩
  · intro c hc ch hch hcap
    obtain ⟨ch0, hch0, hclosed⟩ := (isOpen_iff _ _).mp (hwf.2 c hc)
    have e : ch0 = ch := by rw [hch] at hch0; exact (Option.some.inj hch0).symm
    subst e
    obtain ⟨hroom, hfullc⟩ := hin c hc ch0 hch
    constructor
    · intro hlt
      have hlt2 : ch0.buf.length < ch0.cap := by omega
      refine ⟨?_, ?_⟩
      · rw [hroom hlt2, ← hcap, ← hclosed]
      · rw [hmem c]
        exact ⟨hc, by simp [isFull, hch, hlt2]⟩
    · intro heq
      have hge : ¬ ch0.buf.length < ch0.cap := by omega
      refine ⟨?_, ?_⟩
      · rw [hfullc hge, ← hcap]
      · rw [hmem c]
        rintro ⟨_, h⟩
        simp [isFull, hch, hge] at h
  · intro c hc
    exact ⟨hout c hc, fun h => hc (hsub.subset h)⟩
  · intro t htf htwf c hcs hct hsame_c
    obtain ⟨t1, htrun, _, _, _, _, htin, htmem⟩ := broadcastFrame_spec t f htf htwf
    obtain ⟨ch, hch, _⟩ := (isOpen_iff _ _).mp (hwf.2 c hcs)
    have hcht : t.chans[c]? = some ch := by rw [hsame_c]; exact hch
    have hfull_eq : isFull t.chans c = isFull s.chans c := by
      unfold isFull; rw [hsame_c]
    refine ⟨t1, htrun, ?_, ?_⟩
    · by_cases hroom : ch.buf.length < ch.cap
      · rw [(htin c hct ch hcht).1 hroom, (hin c hcs ch hch).1 hroom]
      · rw [(htin c hct ch hcht).2 hroom, (hin c hcs ch hch).2 hroom]
    · rw [htmem c, hmem c, hfull_eq]
      constructor
      · rintro ⟨_, h⟩; exact ⟨hcs, h⟩
      · rintro ⟨_, h⟩; exact ⟨hct, h⟩

/-- C1 at `twoSubscribers`: the full subscriber is evicted, the other one gets
the frame. -/
theorem broadcastFrame_per_subscriber_witness :
    wf twoSubscribers ∧
    ∃ s1, broadcastFrame twoSubscribers = some s1 ∧
      s1.chans[1]? = some { buf := [[5], [9]], cap := 5, closed := false } ∧ 1 ∈ s1.clients ∧
      s1.chans[0]? = some { buf := [[1], [2], [3], [4], [5]], cap := 5, closed := true } ∧
      0 ∉ s1.clients := by
  refine ⟨by decide, ?_⟩
  obtain ⟨s1, hrun, _, hper, _, _⟩ :=
    broadcastFrame_per_subscriber twoSubscribers [9] rfl (by decide)
  have h1 := (hper 1 (by decide) { buf := [[5]], cap := 5, closed := false } rfl rfl).1
    (by decide)
  have h0 := (hper 0 (by decide)
    { buf := [[1], [2], [3], [4], [5]], cap := 5, closed := false } rfl rfl).2 (by decide)
  exact ⟨s1, hrun, h1.1, h1.2, h0.1, h0.2⟩

/-! ## C7: registration and priming -/

/-- The exact result of `addClient`. -/
theorem addClient_spec (s : StreamServer) :
    ∃ s1, addClient s = some (s1, s.chans.length) ∧
      s1.chans = s.chans ++ [{ buf := primed s.frame, cap := 5, closed := false }] ∧
      s1.clients = mapInsert s.clients s.chans.length ∧
      sameOutsideRegistry s s1 := by
  refine ⟨{ s with chans := s.chans ++ [{ buf := primed s.frame, cap := 5, closed := false }],
                   clients := mapInsert s.clients s.chans.length }, ?_, rfl, rfl,
    ⟨rfl, rfl, rfl, rfl, rfl, rfl, rfl, rfl⟩⟩
  cases hf : s.frame with
  | none => simp [addClient, hf, primed]
  | some f => simp [addClient, hf, primed, Chan.trySend, List.set_append]

theorem mem_mapInsert (m : List Nat) (k x : Nat) :
    x ∈ mapInsert m k ↔ x = k ∨ x ∈ m := by
  unfold mapInsert
  by_cases h : k ∈ m
  · simp only [h, if_true]
    constructor
    · exact Or.inr
    · rintro (rfl | hx)
      · exact h
      · exact hx
  · simp [h]

theorem mapInsert_nodup (m : List Nat) (k : Nat) (h : m.Nodup) : (mapInsert m k).Nodup := by
  unfold mapInsert
  by_cases hk : k ∈ m
  · simpa [hk] using h
  · simp [hk, h]

/-- The `addClient` step keeps the registry a set of open channels. -/
theorem addClient_wf (s s1 : StreamServer) (c : Nat) (h : addClient s = some (s1, c))
    (hwf : wf s) : wf s1 := by
  obtain ⟨s2, hrun, hchans, hclients, _⟩ := addClient_spec s
  rw [hrun] at h
  obtain ⟨rfl, rfl⟩ := Prod.mk.inj (Option.some.inj h)
  refine ⟨by rw [hclients]; exact mapInsert_nodup _ _ hwf.1, ?_⟩
  intro x hx
  rw [hclients, mem_mapInsert] at hx
  rw [isOpen_iff, hchans]
  rcases hx with rfl | hx
  · exact ⟨{ buf := primed s.frame, cap := 5, closed := false }, by simp, rfl⟩
  · obtain ⟨ch, hch, hcl⟩ := (isOpen_iff _ _).mp (hwf.2 x hx)
    have hlt : x < s.chans.length := by
      rcases Nat.lt_or_ge x s.chans.length with h | h
      · exact h
      · rw [List.getElem?_eq_none h] at hch; cases hch
    exact ⟨ch, by rw [List.getElem?_append_left hlt]; exact hch, hcl⟩

/-- C7. `addClient` always returns: a channel `c` that did not exist before, now
registered (the registry gains exactly `c`), whose queue is exactly the latest
frame when there is one and empty when there is none, open, of capacity 5.
Every other channel, its queue included, and every other field is unchanged.
With a latest frame `f`, the first receive on `c` yields `f`; and a frame `g`
broadcast afterwards is queued behind the primed contents. -/
theorem addClient_primes_new_queue (s : StreamServer) :
    ∃ s1 c, addClient s = some (s1, c) ∧
      s.chans[c]? = none ∧
      (∀ x, x ∈ s1.clients ↔ x = c ∨ x ∈ s.clients) ∧
      s1.chans[c]? = some { buf := primed s.frame, cap := 5, closed := false } ∧
      (∀ f, s.frame = some f → primed s.frame = [f] ∧
         (s1.chans[c]?).bind Chan.recv = some (f, { buf := [], cap := 5, closed := false })) ∧
      (s.frame = none → primed s.frame = []) ∧
      (∀ x, x ≠ c → s1.chans[x]? = s.chans[x]?) ∧
      sameOutsideRegistry s s1 ∧
      (wf s → ∀ g, ∃ s2, broadcastFrame { s1 with frame := some g } = some s2 ∧
         s2.chans[c]? = some { buf := primed s.frame ++ [g], cap := 5, closed := false }) := by
  obtain ⟨s1, hrun, hchans, hclients, hsame⟩ := addClient_spec s
  have hnew : s1.chans[s.chans.length]? =
      some { buf := primed s.frame, cap := 5, closed := false } := by
    rw [hchans]; simp
  refine ⟨s1, s.chans.length, hrun, by simp, ?_, hnew, ?_, ?_, ?_, hsame, ?_⟩
  · intro x; rw [hclients, mem_mapInsert]
  · intro f hf
    refine ⟨by simp [primed, hf], ?_⟩
    rw [hnew]; simp [primed, hf, Chan.recv]
  · intro hf; simp [primed, hf]
  · intro x hx
    rw [hchans]
    rcases Nat.lt_or_ge x s.chans.length with h | h
    · exact List.getElem?_append_left h
    · have h2 : s.chans.length < x := by omega
      rw [List.getElem?_eq_none h, List.getElem?_eq_none (by simp; omega)]
  · intro hwf g
    have hwf1 : wf s1 := addClient_wf s s1 _ hrun hwf
    have hwf2 : wf { s1 with frame := some g } := hwf1
    obtain ⟨s2, hb, _, _, _, _, hin, _⟩ :=
      broadcastFrame_spec { s1 with frame := some g } g rfl hwf2
    refine ⟨s2, hb, ?_⟩
    have hc : s.chans.length ∈ s1.clients := by
      rw [hclients, mem_mapInsert]; exact Or.inl rfl
    have hroom : (primed s.frame).length < 5 := by
      cases hf : s.frame <;> simp [primed]
    exact (hin _ hc _ hnew).1 hroom

/-! ## C3: teardown by `Stop` -/

theorem closeAll_spec (cs : List Nat) : ∀ (chans : List Chan),
    cs.Nodup → (∀ c ∈ cs, isOpen chans c = true) →
    ∃ chans1, closeAll cs chans = some chans1 ∧
      chans1.length = chans.length ∧
      (∀ c, c ∉ cs → chans1[c]? = chans[c]?) ∧
      (∀ c ∈ cs, ∀ ch, chans[c]? = some ch → chans1[c]? = some { ch with closed := true }) := by
  induction cs with
  | nil =>
    intro chans _ _
    exact ⟨chans, rfl, rfl, fun _ _ => rfl, by simp⟩
  | cons c rest ih =>
    intro chans hnd hopen
    have hc_notin : c ∉ rest := (List.nodup_cons.mp hnd).1
    obtain ⟨ch, hch, hclosed⟩ := (isOpen_iff _ _).mp (hopen c (List.mem_cons_self _ _))
    have hlt : c < chans.length := by
      rcases Nat.lt_or_ge c chans.length with h | h
      · exact h
      · rw [List.getElem?_eq_none h] at hch; cases hch
    have hkeep : ∀ (x : Nat), x ≠ c →
        (chans.set c { ch with closed := true })[x]? = chans[x]? :=
      fun x hx => List.getElem?_set_ne (Ne.symm hx)
    obtain ⟨chans1, hrun, hlen, hout, hin⟩ :=
      ih (chans.set c { ch with closed := true }) (List.nodup_cons.mp hnd).2 (by
        intro x hx
        have hxc : x ≠ c := fun e => hc_notin (e ▸ hx)
        have := hopen x (List.mem_cons_of_mem _ hx)
        unfold isOpen at this ⊢
        rw [hkeep x hxc]; exact this)
    refine ⟨chans1, ?_, by simpa using hlen, ?_, ?_⟩
    · simp only [closeAll, hch, Chan.close, hclosed]
      simpa using hrun
    · intro x hx
      have hxc : x ≠ c := fun e => hx (e ▸ List.mem_cons_self _ _)
      rw [hout x (fun e => hx (List.mem_cons_of_mem _ e))]; exact hkeep x hxc
    · intro x hx chx hchx
      rcases List.mem_cons.mp hx with rfl | hxr
      · have e : chx = ch := by rw [hch] at hchx; exact (Option.some.inj hchx).symm
        subst e
        rw [hout x hc_notin]
        simp [List.getElem?_set_self, hlt]
      · have hxc : x ≠ c := fun e => hc_notin (e ▸ hxr)
        exact hin x hxr chx (by rw [hkeep x hxc]; exact hchx)

/-- The exact result of `Stop` on a running server. -/
theorem Stop_spec (s : StreamServer) (hrun : s.isRunning = true) (hwf : wf s) :
    ∃ s1, Stop s = some s1 ∧
      s1.clients = [] ∧ s1.isRunning = false ∧ s1.webcam = none ∧
      s1.chans.length = s.chans.length ∧
      (∀ c, c ∉ s.clients → s1.chans[c]? = s.chans[c]?) ∧
      (∀ c ∈ s.clients, ∀ ch, s.chans[c]? = some ch →
         s1.chans[c]? = some { ch with closed := true }) ∧
      s1.frame = s.frame ∧ s1.webcamErr = s.webcamErr ∧ s1.loops = s.loops ∧
      s1.cancelled = s.cancelled ∧ s1.bound = s.sigs.length ∧ s1.sigs = s.sigs ++ [false] := by
  obtain ⟨chans1, hc, hlen, hout, hin⟩ := closeAll_spec s.clients s.chans hwf.1 hwf.2
  exact ⟨{ s with isRunning := false, webcam := none, chans := chans1, clients := [],
                  bound := s.sigs.length, sigs := s.sigs ++ [false] },
    by simp [Stop, hrun, hc], rfl, rfl, rfl, hlen, hout, hin, rfl, rfl, rfl, rfl, rfl, rfl⟩

/-- C3 as stated fails: with a camera open and one viewer attached but the
server not started (`isRunning` false), `Stop` returns at its guard on line 77;
the viewer stays registered and its queue stays open. -/
theorem Stop_idle_keeps_registry :
    run NewStreamServer [Op.openCamera 0 none, Op.addClient] = some idleWithViewer ∧
    Stop idleWithViewer = some idleWithViewer ∧
    idleWithViewer.clients = [0] ∧
    idleWithViewer.chans[0]? = some { buf := [], cap := 5, closed := false } := by
  refine ⟨by decide, by decide, rfl, rfl⟩

/-- C3, amended. For every state in which `isRunning` is true and the registry
is a set of open channels, `Stop` returns (so no close hit an already closed
channel); afterwards every channel that was registered is closed, with its
queued frames unchanged, the registry is empty, and no other channel changed. -/
theorem Stop_running_closes_all (s : StreamServer) (hrun : s.isRunning = true) (hwf : wf s) :
    ∃ s1, Stop s = some s1 ∧
      s1.clients = [] ∧
      (∀ c ∈ s.clients, ∃ ch, s.chans[c]? = some ch ∧ ch.closed = false ∧
         s1.chans[c]? = some { buf := ch.buf, cap := ch.cap, closed := true }) ∧
      (∀ c, c ∉ s.clients → s1.chans[c]? = s.chans[c]?) := by
  obtain ⟨s1, h, hcl, _, _, _, hout, hin, _⟩ := Stop_spec s hrun hwf
  refine ⟨s1, h, hcl, ?_, hout⟩
  intro c hc
  obtain ⟨ch, hch, hopen⟩ := (isOpen_iff _ _).mp (hwf.2 c hc)
  exact ⟨ch, hch, hopen, hin c hc ch hch⟩

/-- C3 amended, at `twoSubscribers` once started. -/
theorem Stop_running_closes_all_witness :
    ∃ s1, Stop { twoSubscribers with isRunning := true } = some s1 ∧ s1.clients = [] ∧
      (∀ c ∈ twoSubscribers.clients, ∃ ch, twoSubscribers.chans[c]? = some ch ∧
         ch.closed = false ∧
         s1.chans[c]? = some { buf := ch.buf, cap := ch.cap, closed := true }) := by
  obtain ⟨s1, h, hcl, hin, _⟩ :=
    Stop_running_closes_all { twoSubscribers with isRunning := true } rfl (by decide)
  exact ⟨s1, h, hcl, hin⟩

/-! ## C6: a stalled subscriber is shed -/

/-- One `publish` on a well-formed state: the result for a registered channel. -/
theorem publish_spec (s : StreamServer) (g : Frame) (hwf : wf s) :
    ∃ s1, publish s g = some s1 ∧ wf s1 ∧
      s1.chans.length = s.chans.length ∧
      (∀ c, c ∉ s.clients → s1.chans[c]? = s.chans[c]? ∧ c ∉ s1.clients) ∧
      (∀ c ∈ s.clients, ∀ ch, s.chans[c]? = some ch →
         (ch.buf.length < ch.cap →
            s1.chans[c]? = some { ch with buf := ch.buf ++ [g] } ∧ c ∈ s1.clients) ∧
         (¬ ch.buf.length < ch.cap →
            s1.chans[c]? = some { ch with closed := true } ∧ c ∉ s1.clients)) ∧
      s1.frame = some g ∧ s1.webcam = s.webcam ∧ s1.webcamErr = s.webcamErr ∧
      s1.isRunning = s.isRunning ∧ s1.sigs = s.sigs ∧ s1.bound = s.bound ∧
      s1.loops = s.loops ∧ s1.cancelled = s.cancelled := by
  have hwf0 : wf { s with frame := some g } := hwf
  obtain ⟨s1, hrun, hsame, hlen, hsub, hout, hin, hmem⟩ :=
    broadcastFrame_spec { s with frame := some g } g rfl hwf0
  obtain ⟨hb, hfr, hw, he, hr, hs, hl, hc⟩ := hsame
  refine ⟨s1, hrun, ⟨hsub.nodup hwf.1, ?_⟩, hlen, ?_, ?_, hfr, hw, he, hr, hs, hb, hl, hc⟩
  · intro x hx
    obtain ⟨hxs, hnf⟩ := (hmem x).mp hx
    obtain ⟨ch, hch, hopen⟩ := (isOpen_iff _ _).mp (hwf.2 x hxs)
    have hroom : ch.buf.length < ch.cap := by
      have hch2 : s.chans[x]? = some ch := hch
      simpa [isFull, hch2] using hnf
    rw [isOpen_iff]
    exact ⟨_, (hin x hxs ch hch).1 hroom, hopen⟩
  · intro c hc
    exact ⟨hout c hc, fun h => hc (hsub.subset h)⟩
  · intro c hc ch hch
    have hch2 : s.chans[c]? = some ch := hch
    constructor
    · intro hroom
      exact ⟨(hin c hc ch hch).1 hroom, (hmem c).mpr ⟨hc, by simp [isFull, hch2, hroom]⟩⟩
    · intro hfull
      refine ⟨(hin c hc ch hch).2 hfull, fun h => ?_⟩
      have := ((hmem c).mp h).2
      simp [isFull, hch2, hfull] at this

/-- A channel outside the registry is not touched by any number of broadcasts. -/
theorem publishAll_unregistered (fs : List Frame) : ∀ (s : StreamServer) (c : Nat),
    wf s → c ∉ s.clients →
    ∃ s2, publishAll s fs = some s2 ∧ wf s2 ∧ c ∉ s2.clients ∧ s2.chans[c]? = s.chans[c]? := by
  induction fs with
  | nil => intro s c hwf hc; exact ⟨s, rfl, hwf, hc, rfl⟩
  | cons g rest ih =>
    intro s c hwf hc
    obtain ⟨s1, hp, hwf1, _, hout, _⟩ := publish_spec s g hwf
    obtain ⟨s2, hrun, hwf2, hc2, hch2⟩ := ih s1 c hwf1 (hout c hc).2
    exact ⟨s2, by simp [publishAll, hp, hrun], hwf2, hc2, by rw [hch2, (hout c hc).1]⟩

/-- A registered channel of capacity 5 whose session never receives: it takes
the broadcast frames until it holds 5 and is evicted by the next broadcast. -/
theorem publishAll_stalled (fs : List Frame) : ∀ (s : StreamServer) (c : Nat) (ch : Chan),
    wf s → c ∈ s.clients → s.chans[c]? = some ch → ch.cap = 5 → ch.buf.length ≤ 5 →
    ∃ s2, publishAll s fs = some s2 ∧ wf s2 ∧
      (ch.buf.length + fs.length ≤ 5 →
         c ∈ s2.clients ∧ s2.chans[c]? = some { buf := ch.buf ++ fs, cap := 5, closed := false }) ∧
      (6 ≤ ch.buf.length + fs.length →
         c ∉ s2.clients ∧
         s2.chans[c]? =
           some { buf := ch.buf ++ fs.take (5 - ch.buf.length), cap := 5, closed := true }) := by
  induction fs with
  | nil =>
    intro s c ch hwf hc hch hcap hlen
    obtain ⟨ch0, hch0, hopen⟩ := (isOpen_iff _ _).mp (hwf.2 c hc)
    have e : ch0 = ch := by rw [hch] at hch0; exact (Option.some.inj hch0).symm
    subst e
    refine ⟨s, rfl, hwf, ?_, ?_⟩
    · intro _
      refine ⟨hc, ?_⟩
      rw [hch, ← hcap, ← hopen]; simp
    · intro h; simp at h; omega
  | cons g rest ih =>
    intro s c ch hwf hc hch hcap hlen
    obtain ⟨ch0, hch0, hopen⟩ := (isOpen_iff _ _).mp (hwf.2 c hc)
    have e : ch0 = ch := by rw [hch] at hch0; exact (Option.some.inj hch0).symm
    subst e
    obtain ⟨s1, hp, hwf1, _, _, hin, _⟩ := publish_spec s g hwf
    by_cases hroom : ch0.buf.length < ch0.cap
    · obtain ⟨hch1, hc1⟩ := (hin c hc ch0 hch).1 hroom
      obtain ⟨s2, hrun, hwf2, hA, hB⟩ :=
        ih s1 c { ch0 with buf := ch0.buf ++ [g] } hwf1 hc1 hch1 hcap
          (by simp; omega)
      refine ⟨s2, by simp [publishAll, hp, hrun], hwf2, ?_, ?_⟩
      · intro h
        have := hA (by simp at h ⊢; omega)
        simpa using this
      · intro h
        have := hB (by simp at h ⊢; omega)
        have e5 : 5 - ch0.buf.length = (5 - (ch0.buf.length + 1)) + 1 := by omega
        rw [e5, List.take_succ_cons]
        simpa using this
    · have hfive : ch0.buf.length = 5 := by omega
      obtain ⟨hch1, hc1⟩ := (hin c hc ch0 hch).2 hroom
      obtain ⟨s2, hrun, hwf2, hc2, hch2⟩ := publishAll_unregistered rest s1 c hwf1 hc1
      refine ⟨s2, by simp [publishAll, hp, hrun], hwf2, ?_, ?_⟩
      · intro h; simp at h; omega
      · intro _
        refine ⟨hc2, ?_⟩
        rw [hch2, hch1, hfive, ← hcap]; simp

/-- C6. From any well-formed state, `addClient` returns a new subscriber `c`;
if its session never receives, then after any 6 or more broadcasts of frames
`c` is no longer registered and its queue is closed. This holds with the queue
primed (latest frame present at registration) and unprimed. The queue then
holds the first 5 frames it was given, and with at most `5 - primed` broadcasts
nothing has been shed yet. -/
theorem stalled_subscriber_evicted (s : StreamServer) (hwf : wf s) (fs : List Frame)
    (hlen : 6 ≤ fs.length) :
    ∃ s1 c s2, addClient s = some (s1, c) ∧ publishAll s1 fs = some s2 ∧
      c ∉ s2.clients ∧
      s2.chans[c]? = some { buf := (primed s.frame ++ fs).take 5, cap := 5, closed := true } ∧
      (∀ gs : List Frame, (primed s.frame).length + gs.length ≤ 5 →
         ∃ s3, publishAll s1 gs = some s3 ∧ c ∈ s3.clients ∧
           s3.chans[c]? = some { buf := primed s.frame ++ gs, cap := 5, closed := false }) := by
  obtain ⟨s1, hadd, hchans, hclients, _⟩ := addClient_spec s
  have hwf1 : wf s1 := addClient_wf s s1 _ hadd hwf
  have hc : s.chans.length ∈ s1.clients := by
    rw [hclients, mem_mapInsert]; exact Or.inl rfl
  have hch : s1.chans[s.chans.length]? =
      some { buf := primed s.frame, cap := 5, closed := false } := by
    rw [hchans]; simp
  have hp : (primed s.frame).length ≤ 1 := by
    cases hf : s.frame <;> simp [primed]
  obtain ⟨s2, hrun, _, _, hB⟩ :=
    publishAll_stalled fs s1 _ _ hwf1 hc hch rfl (by simp only; omega)
  obtain ⟨hc2, hch2⟩ := hB (by simp only; omega)
  refine ⟨s1, _, s2, hadd, hrun, hc2, ?_, ?_⟩
  · rw [hch2]
    simp only [List.take_append_eq_append_take]
    rw [List.take_of_length_le (by omega : (primed s.frame).length ≤ 5)]
  · intro gs hgs
    obtain ⟨s3, hrun3, _, hA, _⟩ :=
      publishAll_stalled gs s1 _ _ hwf1 hc hch rfl (by simp only; omega)
    obtain ⟨hc3, hch3⟩ := hA (by simpa using hgs)
    exact ⟨s3, hrun3, hc3, hch3⟩

/-- C6 at `twoSubscribers` with six frames. -/
theorem stalled_subscriber_evicted_witness :
    wf twoSubscribers ∧
    ∃ s1 c s2, addClient twoSubscribers = some (s1, c) ∧
      publishAll s1 [[1], [2], [3], [4], [5], [6]] = some s2 ∧ c ∉ s2.clients ∧
      s2.chans[c]? = some { buf := [[9], [1], [2], [3], [4]], cap := 5, closed := true } := by
  refine ⟨by decide, ?_⟩
  obtain ⟨s1, c, s2, h1, h2, h3, h4, _⟩ :=
    stalled_subscriber_evicted twoSubscribers (by decide) [[1], [2], [3], [4], [5], [6]]
      (by decide)
  exact ⟨s1, c, s2, h1, h2, h3, h4⟩

/-! ## C2: registered if and only if open -/

theorem registryInv_wf (s : StreamServer) (h : registryInv s) : wf s := by
  refine ⟨h.1, fun c hc => ?_⟩
  have hlt := h.2.1 c hc
  rw [isOpen_iff]
  refine ⟨s.chans[c], List.getElem?_eq_getElem hlt, ?_⟩
  exact ((h.2.2 c _ (List.getElem?_eq_getElem hlt)).2.2).mp hc

/-- A step that leaves `clients` and `chans` alone keeps everything. -/
theorem facts_of_same (s s1 : StreamServer) (h1 : s1.chans = s.chans)
    (h2 : s1.clients = s.clients) (h : registryInv s) :
    registryInv s1 ∧ removedStay s s1 ∧ closedOnRemoval s s1 := by
  refine ⟨?_, ?_, ?_⟩
  · unfold registryInv; rw [h1, h2]; exact h
  · intro c ch hch hc
    rw [h2, h1]
    exact ⟨hc, ch, hch, rfl, List.suffix_refl _⟩
  · intro c hc hc1
    rw [h2] at hc1; exact absurd hc hc1

theorem getElem?_lt_of_some {α : Type} (l : List α) (i : Nat) (a : α) (h : l[i]? = some a) :
    i < l.length := by
  rcases Nat.lt_or_ge i l.length with h1 | h1
  · exact h1
  · rw [List.getElem?_eq_none h1] at h; cases h

theorem addClient_facts (s : StreamServer) (h : registryInv s) :
    ∃ s1 c, addClient s = some (s1, c) ∧
      registryInv s1 ∧ removedStay s s1 ∧ closedOnRemoval s s1 := by
  obtain ⟨s1, hrun, hchans, hclients, _⟩ := addClient_spec s
  have hfresh : s.chans.length ∉ s.clients := fun hm => Nat.lt_irrefl _ (h.2.1 _ hm)
  have hp : (primed s.frame).length ≤ 1 := by
    cases hf : s.frame <;> simp [primed]
  refine ⟨s1, _, hrun, ⟨?_, ?_, ?_⟩, ?_, ?_⟩
  · rw [hclients]; exact mapInsert_nodup _ _ h.1
  · intro c hc
    rw [hclients, mem_mapInsert] at hc
    rw [hchans, List.length_append]
    rcases hc with rfl | hc
    · simp
    · have := h.2.1 c hc; simp; omega
  · intro c ch hch
    rw [hchans] at hch
    rw [hclients, mem_mapInsert]
    rcases Nat.lt_or_ge c s.chans.length with hlt | hge
    · rw [List.getElem?_append_left hlt] at hch
      obtain ⟨h1, h2, h3⟩ := h.2.2 c ch hch
      refine ⟨h1, h2, ?_⟩
      rw [← h3]
      constructor
      · rintro (rfl | hc)
        · exact absurd hlt (Nat.lt_irrefl _)
        · exact hc
      · exact Or.inr
    · have hlt2 := getElem?_lt_of_some _ _ _ hch
      simp at hlt2
      have e : c = s.chans.length := by omega
      subst e
      simp at hch
      subst hch
      exact ⟨rfl, by simp only; omega, by simp⟩
  · intro c ch hch hc
    have hlt := getElem?_lt_of_some _ _ _ hch
    refine ⟨?_, ch, ?_, rfl, List.suffix_refl _⟩
    · rw [hclients, mem_mapInsert]
      rintro (rfl | hc2)
      · exact Nat.lt_irrefl _ hlt
      · exact hc hc2
    · rw [hchans, List.getElem?_append_left hlt]; exact hch
  · intro c hc hc1
    exact absurd (by rw [hclients, mem_mapInsert]; exact Or.inr hc) hc1

/-- Replacing channel `c` by `ch1` in the heap. -/
theorem getElem?_set_cases (chans : List Chan) (c x : Nat) (ch1 chx : Chan)
    (h : (chans.set c ch1)[x]? = some chx) :
    (x = c ∧ chx = ch1 ∧ c < chans.length) ∨ (x ≠ c ∧ chans[x]? = some chx) := by
  by_cases hxc : x = c
  · subst hxc
    have hlt := getElem?_lt_of_some _ _ _ h
    simp at hlt
    left
    rw [List.getElem?_set_self hlt] at h
    exact ⟨rfl, (Option.some.inj h).symm, hlt⟩
  · right
    rw [List.getElem?_set_ne (Ne.symm hxc)] at h
    exact ⟨hxc, h⟩

theorem removeClient_facts (s : StreamServer) (c : Nat) (h : registryInv s) :
    ∃ s1, removeClient s c = some s1 ∧
      registryInv s1 ∧ removedStay s s1 ∧ closedOnRemoval s s1 := by
  by_cases hc : c ∈ s.clients
  · have hlt := h.2.1 c hc
    have hch : s.chans[c]? = some s.chans[c] := List.getElem?_eq_getElem hlt
    obtain ⟨hcap, hlen, hreg⟩ := h.2.2 c _ hch
    have hopen : s.chans[c].closed = false := hreg.mp hc
    refine ⟨{ s with clients := mapDelete s.clients c,
                     chans := s.chans.set c { s.chans[c] with closed := true } },
      by simp [removeClient, hc, hch, Chan.close, hopen], ⟨?_, ?_, ?_⟩, ?_, ?_⟩
    · exact (mapDelete_sublist _ _).nodup h.1
    · intro x hx
      simp only [List.length_set]
      exact h.2.1 x ((mem_mapDelete _ _ _).mp hx).1
    · intro x chx hx
      simp only [mem_mapDelete]
      rcases getElem?_set_cases _ _ _ _ _ hx with ⟨rfl, rfl, _⟩ | ⟨hxc, hx0⟩
      · exact ⟨hcap, hlen, by simp⟩
      · obtain ⟨h1, h2, h3⟩ := h.2.2 x chx hx0
        exact ⟨h1, h2, by rw [← h3]; simp [hxc]⟩
    · intro x chx hx hxn
      have hxc : x ≠ c := fun e => hxn (e ▸ hc)
      refine ⟨fun hm => hxn ((mem_mapDelete _ _ _).mp hm).1, chx, ?_, rfl, List.suffix_refl _⟩
      simp only
      rw [List.getElem?_set_ne (Ne.symm hxc)]; exact hx
    · intro x hx hx1
      simp only [mem_mapDelete] at hx1
      have hxc : x = c := by
        by_contra hne; exact hx1 ⟨hx, hne⟩
      subst hxc
      exact ⟨_, hch, hopen, by simp [List.getElem?_set_self hlt]⟩
  · exact ⟨s, by simp [removeClient, hc], facts_of_same s s rfl rfl h⟩

theorem recvStep_facts (s : StreamServer) (c : Nat) (h : registryInv s) :
    registryInv (recvStep s c) ∧ removedStay s (recvStep s c) ∧
      closedOnRemoval s (recvStep s c) := by
  unfold recvStep
  cases hch : s.chans[c]? with
  | none => exact facts_of_same s s rfl rfl h
  | some ch =>
    cases hbuf : ch.buf with
    | nil =>
      simp only [Chan.recv, hbuf]
      exact facts_of_same s s rfl rfl h
    | cons v rest =>
      simp only [Chan.recv, hbuf]
      have hlt := getElem?_lt_of_some _ _ _ hch
      obtain ⟨hcap, hlen, hreg⟩ := h.2.2 c ch hch
      refine ⟨⟨h.1, ?_, ?_⟩, ?_, ?_⟩
      · intro x hx; simp only [List.length_set]; exact h.2.1 x hx
      · intro x chx hx
        rcases getElem?_set_cases _ _ _ _ _ hx with ⟨rfl, rfl, _⟩ | ⟨hxc, hx0⟩
        · refine ⟨hcap, ?_, hreg⟩
          rw [hbuf] at hlen; simp at hlen ⊢; omega
        · exact h.2.2 x chx hx0
      · intro x chx hx hxn
        refine ⟨hxn, ?_⟩
        by_cases hxc : x = c
        · subst hxc
          have e : chx = ch := by rw [hch] at hx; exact (Option.some.inj hx).symm
          subst e
          refine ⟨{ buf := rest, cap := chx.cap, closed := chx.closed },
            by simp only; rw [List.getElem?_set_self hlt], rfl, ?_⟩
          simp only [hbuf]
          exact List.suffix_cons v rest
        · exact ⟨chx, by simp only; rw [List.getElem?_set_ne (Ne.symm hxc)]; exact hx, rfl,
            List.suffix_refl _⟩
      · intro x hx hx1
        exact absurd hx hx1

theorem broadcastFrame_facts (s : StreamServer) (h : registryInv s) :
    ∃ s1, broadcastFrame s = some s1 ∧
      registryInv s1 ∧ removedStay s s1 ∧ closedOnRemoval s s1 := by
  cases hf : s.frame with
  | none => exact ⟨s, by simp [broadcastFrame, hf], facts_of_same s s rfl rfl h⟩
  | some f =>
    have hwf := registryInv_wf s h
    obtain ⟨s1, hrun, _, hlen, hsub, hout, hin, hmem⟩ := broadcastFrame_spec s f hf hwf
    refine ⟨s1, hrun, ⟨hsub.nodup h.1, ?_, ?_⟩, ?_, ?_⟩
    · intro x hx; rw [hlen]; exact h.2.1 x (hsub.subset hx)
    · intro x chx hx
      have hlt : x < s.chans.length := by
        rw [← hlen]; exact getElem?_lt_of_some _ _ _ hx
      have hch : s.chans[x]? = some s.chans[x] := List.getElem?_eq_getElem hlt
      obtain ⟨hcap, hle, hreg⟩ := h.2.2 x _ hch
      by_cases hxs : x ∈ s.clients
      · have hopen : s.chans[x].closed = false := hreg.mp hxs
        by_cases hroom : s.chans[x].buf.length < s.chans[x].cap
        · rw [(hin x hxs _ hch).1 hroom] at hx
          have e := (Option.some.inj hx).symm
          subst e
          refine ⟨hcap, by simp only [List.length_append, List.length_singleton]; omega, ?_⟩
          simp only [hopen, iff_true]
          exact (hmem x).mpr ⟨hxs, by simp [isFull, hch, hroom]⟩
        · rw [(hin x hxs _ hch).2 hroom] at hx
          have e := (Option.some.inj hx).symm
          subst e
          refine ⟨hcap, hle, ?_⟩
          simp only [Bool.true_eq_false, iff_false]
          intro hm
          have := ((hmem x).mp hm).2
          simp [isFull, hch, hroom] at this
      · rw [hout x hxs, hch] at hx
        have e := (Option.some.inj hx).symm
        subst e
        refine ⟨hcap, hle, ?_⟩
        rw [← hreg]
        exact ⟨fun hm => hsub.subset hm, fun hm => absurd hm hxs⟩
    · intro x chx hx hxn
      exact ⟨fun hm => hxn (hsub.subset hm), chx, by rw [hout x hxn]; exact hx, rfl,
        List.suffix_refl _⟩
    · intro x hx hx1
      have hlt := h.2.1 x hx
      have hch : s.chans[x]? = some s.chans[x] := List.getElem?_eq_getElem hlt
      have hopen : s.chans[x].closed = false := ((h.2.2 x _ hch).2.2).mp hx
      refine ⟨_, hch, hopen, ?_⟩
      by_cases hroom : s.chans[x].buf.length < s.chans[x].cap
      · exact absurd ((hmem x).mpr ⟨hx, by simp [isFull, hch, hroom]⟩) hx1
      · exact (hin x hx _ hch).2 hroom

theorem Stop_facts (s : StreamServer) (h : registryInv s) :
    ∃ s1, Stop s = some s1 ∧
      registryInv s1 ∧ removedStay s s1 ∧ closedOnRemoval s s1 := by
  cases hr : s.isRunning with
  | false => exact ⟨s, by simp [Stop, hr], facts_of_same s s rfl rfl h⟩
  | true =>
    obtain ⟨s1, hrun, hcl, _, _, hlen, hout, hin, _⟩ := Stop_spec s hr (registryInv_wf s h)
    refine ⟨s1, hrun, ⟨by rw [hcl]; exact List.nodup_nil, by rw [hcl]; simp, ?_⟩, ?_, ?_⟩
    · intro x chx hx
      have hlt : x < s.chans.length := by
        rw [← hlen]; exact getElem?_lt_of_some _ _ _ hx
      have hch : s.chans[x]? = some s.chans[x] := List.getElem?_eq_getElem hlt
      obtain ⟨hcap, hle, hreg⟩ := h.2.2 x _ hch
      rw [hcl]
      by_cases hxs : x ∈ s.clients
      · rw [hin x hxs _ hch] at hx
        have e := (Option.some.inj hx).symm
        subst e
        exact ⟨hcap, hle, by simp⟩
      · rw [hout x hxs, hch] at hx
        have e := (Option.some.inj hx).symm
        subst e
        refine ⟨hcap, hle, ?_⟩
        rw [← hreg]; simp [hxs]
    · intro x chx hx hxn
      exact ⟨by rw [hcl]; simp, chx, by rw [hout x hxn]; exact hx, rfl, List.suffix_refl _⟩
    · intro x hx _
      have hlt := h.2.1 x hx
      have hch : s.chans[x]? = some s.chans[x] := List.getElem?_eq_getElem hlt
      exact ⟨_, hch, ((h.2.2 x _ hch).2.2).mp hx, hin x hx _ hch⟩

theorem captureTick_facts (s : StreamServer) (r : Capture) (h : registryInv s) :
    ∃ s1, captureTick s r = some s1 ∧
      registryInv s1 ∧ removedStay s s1 ∧ closedOnRemoval s s1 := by
  cases hw : s.webcam with
  | none => exact ⟨s, by simp [captureTick, hw], facts_of_same s s rfl rfl h⟩
  | some d =>
    cases r with
    | readFail =>
      exact ⟨{ s with webcamErr := some "failed to read frame from webcam" },
        by simp [captureTick, hw], facts_of_same s _ rfl rfl h⟩
    | encodeFail e =>
      exact ⟨{ s with webcamErr := some ("failed to encode frame: " ++ e) },
        by simp [captureTick, hw], facts_of_same s _ rfl rfl h⟩
    | encoded bytes =>
      obtain ⟨h0, _, _⟩ := facts_of_same s { s with frame := some bytes } rfl rfl h
      obtain ⟨s1, hrun, hinv, hrem, hclo⟩ := broadcastFrame_facts _ h0
      refine ⟨s1, ?_, hinv, hrem, hclo⟩
      simp only [captureTick, hw, publish]
      simpa only [hw] using hrun

theorem Start_facts (s s1 : StreamServer) (ctx : Nat) (h : registryInv s)
    (hrun : Start s ctx = some s1) :
    registryInv s1 ∧ removedStay s s1 ∧ closedOnRemoval s s1 := by
  unfold Start at hrun
  cases hr : s.isRunning with
  | true =>
    simp [hr] at hrun
    subst hrun
    exact facts_of_same s s rfl rfl h
  | false =>
    simp only [hr] at hrun
    cases hb : s.sigs[s.bound]? with
    | none => simp [hb] at hrun
    | some b =>
      cases b with
      | true => simp [hb] at hrun
      | false =>
        simp [hb] at hrun
        subst hrun
        exact facts_of_same s _ rfl rfl h

theorem loopBind_same (s : StreamServer) (i : Nat) :
    (loopBind s i).chans = s.chans ∧ (loopBind s i).clients = s.clients := by
  unfold loopBind setPhase
  split
  · split <;> exact ⟨rfl, rfl⟩
  · split <;> exact ⟨rfl, rfl⟩
  · exact ⟨rfl, rfl⟩

theorem loopExit_same (s : StreamServer) (i : Nat) :
    (loopExit s i).chans = s.chans ∧ (loopExit s i).clients = s.clients := by
  unfold loopExit setPhase captureExit
  split
  · split <;> exact ⟨rfl, rfl⟩
  · exact ⟨rfl, rfl⟩

theorem OpenCamera_same (s : StreamServer) (d : Nat) (res : Option String) :
    (OpenCamera s d res).1.chans = s.chans ∧ (OpenCamera s d res).1.clients = s.clients := by
  cases res <;> exact ⟨rfl, rfl⟩

/-- Every event keeps the invariant and the two step properties. -/
theorem step_facts (s s1 : StreamServer) (op : Op) (h : registryInv s)
    (hstep : step s op = some s1) :
    registryInv s1 ∧ removedStay s s1 ∧ closedOnRemoval s s1 := by
  cases op with
  | addClient =>
    obtain ⟨s2, c, hrun, hf⟩ := addClient_facts s h
    simp only [step, hrun, Option.map_some', Option.some.injEq] at hstep
    subst hstep; exact hf
  | removeClient c =>
    obtain ⟨s2, hrun, hf⟩ := removeClient_facts s c h
    simp only [step, hrun, Option.some.injEq] at hstep
    subst hstep; exact hf
  | broadcastFrame =>
    obtain ⟨s2, hrun, hf⟩ := broadcastFrame_facts s h
    simp only [step, hrun, Option.some.injEq] at hstep
    subst hstep; exact hf
  | stop =>
    obtain ⟨s2, hrun, hf⟩ := Stop_facts s h
    simp only [step, hrun, Option.some.injEq] at hstep
    subst hstep; exact hf
  | start ctx => exact Start_facts s s1 ctx h hstep
  | openCamera d res =>
    simp only [step, Option.some.injEq] at hstep
    subst hstep
    exact facts_of_same s _ (OpenCamera_same s d res).1 (OpenCamera_same s d res).2 h
  | tick i r =>
    simp only [step] at hstep
    split at hstep
    · obtain ⟨s2, hrun, hf⟩ := captureTick_facts s r h
      rw [hrun] at hstep
      simp only [Option.some.injEq] at hstep
      subst hstep; exact hf
    · simp only [Option.some.injEq] at hstep
      subst hstep; exact facts_of_same s s rfl rfl h
  | recv c =>
    simp only [step, Option.some.injEq] at hstep
    subst hstep; exact recvStep_facts s c h
  | cancel ctx =>
    simp only [step, Option.some.injEq] at hstep
    subst hstep; exact facts_of_same s _ rfl rfl h
  | loopBind i =>
    simp only [step, Option.some.injEq] at hstep
    subst hstep
    exact facts_of_same s _ (loopBind_same s i).1 (loopBind_same s i).2 h
  | loopExit i =>
    simp only [step, Option.some.injEq] at hstep
    subst hstep
    exact facts_of_same s _ (loopExit_same s i).1 (loopExit_same s i).2 h

/-- No event other than `Start` can panic in a state that satisfies the
invariant. -/
theorem step_total (s : StreamServer) (op : Op) (h : registryInv s)
    (hop : ∀ ctx, op ≠ Op.start ctx) : ∃ s1, step s op = some s1 := by
  cases op with
  | addClient =>
    obtain ⟨s2, c, hrun, _⟩ := addClient_facts s h
    exact ⟨s2, by simp [step, hrun]⟩
  | removeClient c =>
    obtain ⟨s2, hrun, _⟩ := removeClient_facts s c h
    exact ⟨s2, by simp [step, hrun]⟩
  | broadcastFrame =>
    obtain ⟨s2, hrun, _⟩ := broadcastFrame_facts s h
    exact ⟨s2, by simp [step, hrun]⟩
  | stop =>
    obtain ⟨s2, hrun, _⟩ := Stop_facts s h
    exact ⟨s2, by simp [step, hrun]⟩
  | start ctx => exact absurd rfl (hop ctx)
  | openCamera d res => exact ⟨_, rfl⟩
  | tick i r =>
    obtain ⟨s2, hrun, _⟩ := captureTick_facts s r h
    by_cases hl : loopRunning s i = true
    · exact ⟨s2, by simp [step, hl, hrun]⟩
    · exact ⟨s, by simp [step, hl]⟩
  | recv c => exact ⟨_, rfl⟩
  | cancel ctx => exact ⟨_, rfl⟩
  | loopBind i => exact ⟨_, rfl⟩
  | loopExit i => exact ⟨_, rfl⟩

theorem NewStreamServer_inv : registryInv NewStreamServer := by
  refine ⟨List.nodup_nil, by simp [NewStreamServer], ?_⟩
  intro c ch hch
  simp [NewStreamServer] at hch

theorem run_inv (ops : List Op) : ∀ (s s1 : StreamServer),
    registryInv s → run s ops = some s1 → registryInv s1 := by
  induction ops with
  | nil =>
    intro s s1 h hrun
    simp only [run, Option.some.injEq] at hrun
    subst hrun; exact h
  | cons op rest ih =>
    intro s s1 h hrun
    simp only [run] at hrun
    cases hs : step s op with
    | none => simp [hs] at hrun
    | some s2 =>
      simp only [hs] at hrun
      exact ih s2 s1 (step_facts s s2 op h hs).1 hrun

theorem sampleTrace_run : run NewStreamServer sampleTrace = some sampleState := by
  decide

/-- C2. In every state reached from `NewStreamServer` by any sequence of events
(`addClient`, `removeClient`, `broadcastFrame`, `Stop`, and also `Start`,
`OpenCamera`, capture ticks, goroutine steps, session receives):
* a channel that exists is registered if and only if it is open, and every
  registered channel exists;
* every next event other than `Start` returns without panic, so no `close`
  hits a closed channel and no send hits a closed channel;
* in every next step, a channel that leaves the registry was open and is closed
  in that step with its queue unchanged;
* in every next step, a channel that is not registered stays unregistered and
  closed, and nothing is added to its queue. -/
theorem registered_iff_open (ops : List Op) (s : StreamServer)
    (h : run NewStreamServer ops = some s) :
    (∀ c ch, s.chans[c]? = some ch → (c ∈ s.clients ↔ ch.closed = false)) ∧
    (∀ c ∈ s.clients, ∃ ch, s.chans[c]? = some ch) ∧
    (∀ op, (∀ ctx, op ≠ Op.start ctx) → ∃ s1, step s op = some s1) ∧
    (∀ op s1, step s op = some s1 →
      (∀ c ∈ s.clients, c ∉ s1.clients →
         ∃ ch, s.chans[c]? = some ch ∧ ch.closed = false ∧
           s1.chans[c]? = some { buf := ch.buf, cap := ch.cap, closed := true }) ∧
      (∀ c ch, s.chans[c]? = some ch → c ∉ s.clients →
         ch.closed = true ∧ c ∉ s1.clients ∧
         ∃ ch1, s1.chans[c]? = some ch1 ∧ ch1.closed = true ∧ ch1.buf <:+ ch.buf)) := by
  have hinv : registryInv s := run_inv ops NewStreamServer s NewStreamServer_inv h
  refine ⟨fun c ch hch => (hinv.2.2 c ch hch).2.2, ?_, fun op hop => step_total s op hinv hop, ?_⟩
  · intro c hc
    have hlt := hinv.2.1 c hc
    exact ⟨s.chans[c], List.getElem?_eq_getElem hlt⟩
  · intro op s1 hstep
    obtain ⟨_, hrem, hclo⟩ := step_facts s s1 op hinv hstep
    refine ⟨hclo, ?_⟩
    intro c ch hch hc
    have hclosed : ch.closed = true := by
      cases hcl : ch.closed with
      | true => rfl
      | false => exact absurd (((hinv.2.2 c ch hch).2.2).mpr hcl) hc
    obtain ⟨hc1, ch1, hch1, hcl1, hsuf⟩ := hrem c ch hch hc
    exact ⟨hclosed, hc1, ch1, hch1, by rw [hcl1, hclosed], hsuf⟩

/-- C2 at `sampleTrace`: channel 0 (evicted) is closed and unregistered,
channel 1 is open and registered, and a further broadcast does not panic. -/
theorem registered_iff_open_witness :
    run NewStreamServer sampleTrace = some sampleState ∧
    (∀ c ch, sampleState.chans[c]? = some ch → (c ∈ sampleState.clients ↔ ch.closed = false)) ∧
    (∃ s1, step sampleState (Op.tick 0 (Capture.encoded [7])) = some s1) := by
  obtain ⟨h1, _, h3, _⟩ := registered_iff_open sampleTrace sampleState sampleTrace_run
  exact ⟨sampleTrace_run, h1, h3 _ (fun ctx hne => Op.noConfusion hne)⟩

/-! ## C5: delivery in capture order -/

/-- A step that changes no queue, no channel's existence and not the latest
frame, and delivers nothing. -/
theorem bufStep_of_bufs (s s1 : StreamServer) (op : Op) (hf : s1.frame = s.frame)
    (hb : ∀ c, bufOf s1 c = bufOf s c)
    (hn : ∀ c : Nat, s1.chans[c]? = none → s.chans[c]? = none)
    (hr : receivedBy s op = none) : BufStep s s1 op := by
  refine ⟨fun f h => Or.inl (by rw [← hf]; exact h), hn, fun c => Or.inr ⟨?_, Or.inl (hb c)⟩⟩
  intro v hv
  rw [hr] at hv; cases hv

theorem bufStep_of_same (s s1 : StreamServer) (op : Op) (hf : s1.frame = s.frame)
    (hc : s1.chans = s.chans) (hr : receivedBy s op = none) : BufStep s s1 op :=
  bufStep_of_bufs s s1 op hf (fun c => by unfold bufOf; rw [hc])
    (fun c h => by rw [← hc]; exact h) hr

theorem bufOf_closed (chans1 chans : List Chan) (c : Nat)
    (h : chans1[c]? = chans[c]? ∨
      ∃ ch, chans[c]? = some ch ∧ chans1[c]? = some { ch with closed := true })
    (s s1 : StreamServer) (hs : s.chans = chans) (hs1 : s1.chans = chans1) :
    bufOf s1 c = bufOf s c ∧ (s1.chans[c]? = none → s.chans[c]? = none) := by
  subst hs hs1
  unfold bufOf
  rcases h with h | ⟨ch, h0, h1⟩
  · rw [h]; exact ⟨rfl, id⟩
  · rw [h0, h1]; exact ⟨rfl, fun h => by cases h⟩

theorem removeClient_bufs (s s1 : StreamServer) (c : Nat) (op : Op)
    (hrun : removeClient s c = some s1) (hr : receivedBy s op = none) : BufStep s s1 op := by
  unfold removeClient at hrun
  by_cases hc : c ∈ s.clients
  · simp only [hc, if_true] at hrun
    cases hch : s.chans[c]? with
    | none => simp [hch] at hrun
    | some ch =>
      cases hcl : ch.close with
      | none => simp [hch, hcl] at hrun
      | some ch1 =>
        simp only [hch, hcl, Option.some.injEq] at hrun
        subst hrun
        have e : ch1 = { ch with closed := true } := by
          unfold Chan.close at hcl
          split at hcl
          · cases hcl
          · exact (Option.some.inj hcl).symm
        have hlt := getElem?_lt_of_some _ _ _ hch
        refine bufStep_of_bufs s _ op rfl (fun x => ?_) (fun x => ?_) hr
        · refine (bufOf_closed _ s.chans x ?_ s _ rfl rfl).1
          by_cases hx : x = c
          · subst hx
            exact Or.inr ⟨ch, hch, by rw [List.getElem?_set_self hlt, e]⟩
          · exact Or.inl (List.getElem?_set_ne (Ne.symm hx))
        · refine (bufOf_closed _ s.chans x ?_ s _ rfl rfl).2
          by_cases hx : x = c
          · subst hx
            exact Or.inr ⟨ch, hch, by rw [List.getElem?_set_self hlt, e]⟩
          · exact Or.inl (List.getElem?_set_ne (Ne.symm hx))
  · simp only [hc, if_false, Option.some.injEq] at hrun
    subst hrun
    exact bufStep_of_same s s op rfl rfl hr

theorem Stop_bufs (s s1 : StreamServer) (op : Op) (hinv : registryInv s)
    (hrun : Stop s = some s1) (hr : receivedBy s op = none) : BufStep s s1 op := by
  cases hrn : s.isRunning with
  | false =>
    simp [Stop, hrn] at hrun
    subst hrun
    exact bufStep_of_same s s op rfl rfl hr
  | true =>
    obtain ⟨s2, hrun2, _, _, _, _, hout, hin, hfr, _⟩ := Stop_spec s hrn (registryInv_wf s hinv)
    rw [hrun2] at hrun
    have e := Option.some.inj hrun
    subst e
    have key : ∀ x : Nat, s2.chans[x]? = s.chans[x]? ∨
        ∃ ch, s.chans[x]? = some ch ∧ s2.chans[x]? = some { ch with closed := true } := by
      intro x
      by_cases hx : x ∈ s.clients
      · have hlt := hinv.2.1 x hx
        exact Or.inr ⟨s.chans[x], List.getElem?_eq_getElem hlt,
          hin x hx _ (List.getElem?_eq_getElem hlt)⟩
      · exact Or.inl (hout x hx)
    exact bufStep_of_bufs s s2 op hfr
      (fun x => (bufOf_closed _ s.chans x (key x) s s2 rfl rfl).1)
      (fun x => (bufOf_closed _ s.chans x (key x) s s2 rfl rfl).2) hr

theorem addClient_bufs (s s1 : StreamServer) (c : Nat) (op : Op)
    (hrun : addClient s = some (s1, c)) (hr : receivedBy s op = none) : BufStep s s1 op := by
  obtain ⟨s2, hrun2, hchans, _, hsame⟩ := addClient_spec s
  rw [hrun2] at hrun
  obtain ⟨rfl, rfl⟩ := Prod.mk.inj (Option.some.inj hrun)
  refine ⟨fun f h => Or.inl (by rw [← hsame.2.1]; exact h), ?_, fun x => Or.inr ⟨?_, ?_⟩⟩
  · intro x hx
    rw [hchans] at hx
    have hge : (s.chans ++ [({ buf := primed s.frame, cap := 5, closed := false } : Chan)]).length
        ≤ x := List.getElem?_eq_none_iff.mp hx
    simp at hge
    exact List.getElem?_eq_none (by omega)
  · intro v hv; rw [hr] at hv; cases hv
  · rcases Nat.lt_trichotomy x s.chans.length with hlt | heq | hgt
    · left
      unfold bufOf
      rw [hchans, List.getElem?_append_left hlt]
    · right; right
      subst heq
      refine ⟨by simp, ?_⟩
      unfold bufOf
      rw [hchans]; simp
    · left
      unfold bufOf
      rw [hchans, List.getElem?_eq_none (by simp; omega), List.getElem?_eq_none (by omega)]

theorem publish_bufs (s s1 : StreamServer) (g : Frame) (hinv : registryInv s)
    (hrun : publish s g = some s1) :
    (∀ f, s1.frame = some f → f = g) ∧
    (∀ c : Nat, s1.chans[c]? = none → s.chans[c]? = none) ∧
    ∀ c, bufOf s1 c = bufOf s c ∨ bufOf s1 c = bufOf s c ++ [g] := by
  obtain ⟨s2, hrun2, _, hlen, hout, hin, hfr, _⟩ := publish_spec s g (registryInv_wf s hinv)
  rw [hrun2] at hrun
  have e := Option.some.inj hrun
  subst e
  refine ⟨fun f h => ?_, fun c h => ?_, fun c => ?_⟩
  · rw [hfr] at h; exact (Option.some.inj h).symm
  · have hge : s2.chans.length ≤ c := List.getElem?_eq_none_iff.mp h
    exact List.getElem?_eq_none (by omega)
  · by_cases hc : c ∈ s.clients
    · have hlt := hinv.2.1 c hc
      have hch : s.chans[c]? = some s.chans[c] := List.getElem?_eq_getElem hlt
      by_cases hroom : s.chans[c].buf.length < s.chans[c].cap
      · right
        unfold bufOf
        rw [((hin c hc _ hch).1 hroom).1, hch]
      · left
        unfold bufOf
        rw [((hin c hc _ hch).2 hroom).1, hch]
    · left
      unfold bufOf
      rw [(hout c hc).1]

theorem captureTick_bufs (s s1 : StreamServer) (i : Nat) (r : Capture)
    (hinv : registryInv s) (hl : loopRunning s i = true)
    (hrun : captureTick s r = some s1) : BufStep s s1 (Op.tick i r) := by
  have hrecv : receivedBy s (Op.tick i r) = none := rfl
  cases hw : s.webcam with
  | none =>
    simp [captureTick, hw] at hrun
    subst hrun
    exact bufStep_of_same s s _ rfl rfl hrecv
  | some d =>
    cases r with
    | readFail =>
      simp [captureTick, hw] at hrun
      subst hrun
      exact bufStep_of_same s _ _ rfl rfl hrecv
    | encodeFail e =>
      simp [captureTick, hw] at hrun
      subst hrun
      exact bufStep_of_same s _ _ rfl rfl hrecv
    | encoded bytes =>
      simp only [captureTick, hw] at hrun
      obtain ⟨h1, h2, h3⟩ := publish_bufs s s1 bytes hinv hrun
      have hpub : publishedBy s (Op.tick i (Capture.encoded bytes)) = [bytes] := by
        simp [publishedBy, hl, hw]
      refine ⟨fun f h => Or.inr ?_, h2, fun c => Or.inr ⟨?_, ?_⟩⟩
      · rw [hpub, h1 f h]; exact List.mem_singleton.mpr rfl
      · intro v hv; rw [hrecv] at hv; cases hv
      · rw [hpub]
        rcases h3 c with h | h
        · exact Or.inl h
        · exact Or.inr (Or.inl h)

theorem recvStep_bufs (s : StreamServer) (c : Nat) : BufStep s (recvStep s c) (Op.recv c) := by
  unfold recvStep
  cases hch : s.chans[c]? with
  | none => exact bufStep_of_same s s _ rfl rfl (by simp [receivedBy, hch])
  | some ch =>
    cases hbuf : ch.buf with
    | nil =>
      simp only [Chan.recv, hbuf]
      exact bufStep_of_same s s _ rfl rfl (by simp [receivedBy, hch, Chan.recv, hbuf])
    | cons v rest =>
      simp only [Chan.recv, hbuf]
      have hlt := getElem?_lt_of_some _ _ _ hch
      have hrecv : receivedBy s (Op.recv c) = some (c, v) := by
        simp [receivedBy, hch, Chan.recv, hbuf]
      refine ⟨fun f h => Or.inl h, fun x hx => ?_, fun x => ?_⟩
      · have hge : (s.chans.set c { buf := rest, cap := ch.cap, closed := ch.closed }).length ≤ x :=
          List.getElem?_eq_none_iff.mp hx
        simp at hge
        exact List.getElem?_eq_none hge
      · by_cases hx : x = c
        · subst hx
          left
          refine ⟨v, hrecv, ?_⟩
          unfold bufOf
          simp only
          rw [hch, List.getElem?_set_self hlt]
          exact hbuf
        · right
          refine ⟨fun w hw => ?_, Or.inl ?_⟩
          · rw [hrecv] at hw
            exact hx (Prod.mk.inj (Option.some.inj hw)).1.symm
          · unfold bufOf
            simp only
            rw [List.getElem?_set_ne (Ne.symm hx)]

/-- Every event that the code can perform moves frames as `BufStep` says. -/
theorem step_bufs (s s1 : StreamServer) (op : Op) (hinv : registryInv s)
    (hstep : step s op = some s1) (hraw : op ≠ Op.broadcastFrame) : BufStep s s1 op := by
  cases op with
  | addClient =>
    simp only [step] at hstep
    cases ha : addClient s with
    | none => simp [ha] at hstep
    | some p =>
      obtain ⟨s2, c⟩ := p
      simp only [ha, Option.map_some', Option.some.injEq] at hstep
      subst hstep
      exact addClient_bufs s s2 c _ ha rfl
  | removeClient c => exact removeClient_bufs s s1 c _ hstep rfl
  | broadcastFrame => exact absurd rfl hraw
  | stop => exact Stop_bufs s s1 _ hinv hstep rfl
  | start ctx =>
    simp only [step] at hstep
    unfold Start at hstep
    cases hr : s.isRunning with
    | true =>
      simp [hr] at hstep
      subst hstep
      exact bufStep_of_same s s _ rfl rfl rfl
    | false =>
      simp only [hr] at hstep
      cases hb : s.sigs[s.bound]? with
      | none => simp [hb] at hstep
      | some b =>
        cases b with
        | true => simp [hb] at hstep
        | false =>
          simp [hb] at hstep
          subst hstep
          exact bufStep_of_same s _ _ rfl rfl rfl
  | openCamera d res =>
    simp only [step, Option.some.injEq] at hstep
    subst hstep
    exact bufStep_of_same s _ _ (by cases res <;> rfl) (OpenCamera_same s d res).1 rfl
  | tick i r =>
    simp only [step] at hstep
    by_cases hl : loopRunning s i = true
    · simp only [hl, if_true] at hstep
      exact captureTick_bufs s s1 i r hinv hl hstep
    · simp only [hl] at hstep
      simp only [Bool.false_eq_true, if_false, Option.some.injEq] at hstep
      subst hstep
      exact bufStep_of_same s s _ rfl rfl rfl
  | recv c =>
    simp only [step, Option.some.injEq] at hstep
    subst hstep
    exact recvStep_bufs s c
  | cancel ctx =>
    simp only [step, Option.some.injEq] at hstep
    subst hstep
    exact bufStep_of_same s _ _ rfl rfl rfl
  | loopBind i =>
    simp only [step, Option.some.injEq] at hstep
    subst hstep
    refine bufStep_of_same s _ _ ?_ (loopBind_same s i).1 rfl
    unfold loopBind setPhase
    split
    · split <;> rfl
    · split <;> rfl
    · rfl
  | loopExit i =>
    simp only [step, Option.some.injEq] at hstep
    subst hstep
    refine bufStep_of_same s _ _ ?_ (loopExit_same s i).1 rfl
    unfold loopExit setPhase captureExit
    split
    · split <;> rfl
    · rfl

theorem observe_dequeued_other (s : StreamServer) (h : Hist) (op : Op) (c : Nat)
    (hne : ∀ v, receivedBy s op ≠ some (c, v)) :
    (observe s h op).dequeued c = h.dequeued c := by
  unfold observe
  cases hr : receivedBy s op with
  | none => rfl
  | some p =>
    obtain ⟨c1, v⟩ := p
    have hc : c ≠ c1 := fun e => hne v (by rw [hr, e])
    simp [hc]

theorem observe_dequeued_self (s : StreamServer) (h : Hist) (op : Op) (c : Nat) (v : Frame)
    (hr : receivedBy s op = some (c, v)) :
    (observe s h op).dequeued c = h.dequeued c ++ [v] := by
  unfold observe
  simp [hr]

theorem primed_sublist (frame : Option Frame) (published : List Frame)
    (h : ∀ f, frame = some f → f ∈ published) : (primed frame).Sublist published := by
  cases hf : frame with
  | none => simp [primed]
  | some f => simpa [primed] using h f hf

/-- One event keeps the history in step with the state. -/
theorem observe_inv (s s1 : StreamServer) (h : Hist) (op : Op)
    (hh : histInv s h) (hb : BufStep s s1 op) : histInv s1 (observe s h op) := by
  obtain ⟨hfr, hnone, hsub⟩ := hh
  obtain ⟨bfr, bnone, bbuf⟩ := hb
  have hpub : (observe s h op).published = h.published ++ publishedBy s op := rfl
  have hbuf_none : ∀ c : Nat, s.chans[c]? = none → bufOf s c = [] := by
    intro c hc; unfold bufOf; rw [hc]
  refine ⟨?_, ?_, ?_⟩
  · intro f hf
    rw [hpub]
    rcases bfr f hf with h0 | h0
    · exact List.mem_append_left _ (hfr f h0)
    · exact List.mem_append_right _ h0
  · intro c hc
    have hc0 := bnone c hc
    rcases bbuf c with ⟨v, _, hv⟩ | ⟨hne, _⟩
    · rw [hbuf_none c hc0] at hv; cases hv
    · rw [observe_dequeued_other s h op c hne]; exact hnone c hc0
  · intro c
    rw [hpub]
    rcases bbuf c with ⟨v, hr, hv⟩ | ⟨hne, hcase⟩
    · rw [observe_dequeued_self s h op c v hr, List.append_assoc, List.singleton_append, ← hv]
      exact (hsub c).trans (List.sublist_append_left _ _)
    · rw [observe_dequeued_other s h op c hne]
      rcases hcase with h0 | h0 | ⟨h0, h1⟩
      · rw [h0]; exact (hsub c).trans (List.sublist_append_left _ _)
      · rw [h0, ← List.append_assoc]
        exact List.Sublist.append (hsub c) (List.Sublist.refl _)
      · rw [h1, hnone c h0, List.nil_append]
        exact (primed_sublist s.frame h.published hfr).trans (List.sublist_append_left _ _)

theorem runObs_inv (ops : List Op) : ∀ (s s1 : StreamServer) (h h1 : Hist),
    registryInv s → histInv s h → (∀ op ∈ ops, op ≠ Op.broadcastFrame) →
    runObs s h ops = some (s1, h1) → histInv s1 h1 := by
  induction ops with
  | nil =>
    intro s s1 h h1 _ hh _ hrun
    simp only [runObs, Option.some.injEq, Prod.mk.injEq] at hrun
    obtain ⟨rfl, rfl⟩ := hrun
    exact hh
  | cons op rest ih =>
    intro s s1 h h1 hinv hh hcode hrun
    simp only [runObs] at hrun
    cases hs : step s op with
    | none => simp [hs] at hrun
    | some s2 =>
      simp only [hs] at hrun
      have hop : op ≠ Op.broadcastFrame := hcode op (List.mem_cons_self _ _)
      exact ih s2 s1 _ h1 (step_facts s s2 op hinv hs).1
        (observe_inv s s2 h op hh (step_bufs s s2 op hinv hs hop))
        (fun o ho => hcode o (List.mem_cons_of_mem _ ho)) hrun

theorem histInv_empty : histInv NewStreamServer Hist.empty := by
  refine ⟨?_, fun _ _ => rfl, fun c => ?_⟩
  · intro f hf; simp [NewStreamServer] at hf
  · simp [Hist.empty, bufOf, NewStreamServer]

/-- C5. Run any sequence of events of the code from `NewStreamServer` (capture
ticks, registrations, removals, receives, `Start`, `Stop`, ...; `broadcastFrame`
is called only from a capture tick, as in the source), recording the frames the
capture loop publishes and the frames each session receives. Then for every
channel, the frames its session has received so far followed by the frames still
queued are a subsequence, in order, of the published frames. -/
theorem delivery_in_capture_order (ops : List Op) (s : StreamServer) (h : Hist)
    (hrun : runObs NewStreamServer Hist.empty ops = some (s, h))
    (hcode : ∀ op ∈ ops, op ≠ Op.broadcastFrame) :
    ∀ c ch, s.chans[c]? = some ch → (h.dequeued c ++ ch.buf).Sublist h.published := by
  intro c ch hch
  have := (runObs_inv ops NewStreamServer s Hist.empty h NewStreamServer_inv histInv_empty
    hcode hrun).2.2 c
  unfold bufOf at this
  rw [hch] at this
  exact this

/-- C5 at `sampleTrace`: the second viewer was primed with frame `[5]`, received
it, and holds `[6]`; the first holds frames 1 to 5. -/
theorem delivery_in_capture_order_witness :
    ∃ s h, runObs NewStreamServer Hist.empty sampleTrace = some (s, h) ∧
      h.published = [[1], [2], [3], [4], [5], [6]] ∧
      h.dequeued 1 = [[5]] ∧ bufOf s 1 = [[6]] ∧ bufOf s 0 = [[1], [2], [3], [4], [5]] ∧
      ∀ c ch, s.chans[c]? = some ch → (h.dequeued c ++ ch.buf).Sublist h.published := by
  refine ⟨_, _, rfl, by decide, by decide, by decide, by decide, ?_⟩
  exact delivery_in_capture_order sampleTrace _ _ rfl (by decide)

/-! ## C8: the stream wire format -/

theorem part_header_bytes :
    bytesOf "--frame\r\nContent-Type: image/jpeg\r\n\r\n" =
      bytesOf "--frame\r\n" ++ bytesOf "Content-Type: image/jpeg\r\n" ++ bytesOf "\r\n" := by
  decide

/-- A successful write appends its bytes and leaves only successful writes. -/
theorem Write_ok (w : ResponseWriter) (p : List Nat) (hok : ∀ b ∈ w.writeResults, b = true) :
    (w.Write p).2 = true ∧ (w.Write p).1.body = w.body ++ p ∧
      (w.Write p).1.isFlusher = w.isFlusher ∧ (w.Write p).1.header = w.header ∧
      ∀ b ∈ (w.Write p).1.writeResults, b = true := by
  unfold ResponseWriter.Write
  cases hr : w.writeResults with
  | nil => simp [hr]
  | cons b rest =>
    have hb : b = true := hok b (by rw [hr]; exact List.mem_cons_self _ _)
    subst hb
    refine ⟨rfl, rfl, rfl, rfl, ?_⟩
    intro b hb
    exact hok b (by rw [hr]; exact List.mem_cons_of_mem _ hb)

theorem streamLoop_ok (events : List SelectEvent) : ∀ (w : ResponseWriter),
    (∀ b ∈ w.writeResults, b = true) →
    (streamLoop w events).body = w.body ++ wire (framesTaken w.isFlusher events) ∧
      (streamLoop w events).header = w.header := by
  induction events with
  | nil => intro w _; simp [streamLoop, framesTaken, wire]
  | cons e rest ih =>
    intro w hok
    cases e with
    | disconnected => simp [streamLoop, framesTaken, wire]
    | closed => simp [streamLoop, framesTaken, wire]
    | frame f =>
      obtain ⟨h1, b1, f1, hd1, ok1⟩ :=
        Write_ok w (bytesOf "--frame\r\nContent-Type: image/jpeg\r\n\r\n") hok
      obtain ⟨h2, b2, f2, hd2, ok2⟩ := Write_ok _ f ok1
      obtain ⟨h3, b3, f3, hd3, ok3⟩ := Write_ok _ (bytesOf "\r\n") ok2
      have hbody : ((((w.Write (bytesOf "--frame\r\nContent-Type: image/jpeg\r\n\r\n")).1.Write
          f).1.Write (bytesOf "\r\n")).1).body = w.body ++ part f := by
        rw [b3, b2, b1, part_header_bytes]
        simp [part, List.append_assoc]
      have hfl : ((((w.Write (bytesOf "--frame\r\nContent-Type: image/jpeg\r\n\r\n")).1.Write
          f).1.Write (bytesOf "\r\n")).1).isFlusher = w.isFlusher := by
        rw [f3, f2, f1]
      have hhd : ((((w.Write (bytesOf "--frame\r\nContent-Type: image/jpeg\r\n\r\n")).1.Write
          f).1.Write (bytesOf "\r\n")).1).header = w.header := by
        rw [hd3, hd2, hd1]
      simp only [streamLoop, h1, h2, h3, Bool.not_true, Bool.false_eq_true, if_false, hfl]
      cases hflush : w.isFlusher with
      | false =>
        simp only [Bool.false_eq_true, if_false, framesTaken, wire, List.append_nil]
        exact ⟨hbody, hhd⟩
      | true =>
        simp only [if_true, framesTaken, wire]
        obtain ⟨ihb, ihh⟩ := ih _ ok3
        rw [ihb, ihh, hbody, hfl, hflush, hhd, List.append_assoc]
        exact ⟨rfl, rfl⟩

/-- C8. In a stream session (a camera is bound) whose writes all succeed, the
response `Content-Type` is `multipart/x-mixed-replace; boundary=frame` and the
bytes written to the body are, for the frames the session takes in order, the
concatenation of one part per frame, each part being
`--frame\r\n` ++ `Content-Type: image/jpeg\r\n` ++ `\r\n` ++ frame ++ `\r\n`. -/
theorem stream_wire_format (s : StreamServer) (w : ResponseWriter) (events : List SelectEvent)
    (hcam : s.webcam ≠ none) (hok : ∀ b ∈ w.writeResults, b = true) :
    (serveStream s w events).header.lookup "Content-Type" =
      some ("multipart/x-mixed-replace; boundary=" ++ "frame") ∧
    (serveStream s w events).body = w.body ++ wire (framesTaken w.isFlusher events) ∧
    (∀ f fs, wire (f :: fs) =
      bytesOf ("--" ++ "frame" ++ "\r\n") ++ bytesOf "Content-Type: image/jpeg\r\n" ++
        bytesOf "\r\n" ++ f ++ bytesOf "\r\n" ++ wire fs) := by
  cases hw : s.webcam with
  | none => exact absurd hw hcam
  | some d =>
    have h := streamLoop_ok events
      (((w.setHeader "Content-Type" "multipart/x-mixed-replace; boundary=frame").setHeader
        "Cache-Control" "no-cache, no-store, must-revalidate").setHeader "Connection" "close")
      hok
    refine ⟨?_, ?_, ?_⟩
    · simp only [serveStream, hw]
      rw [h.2]
      simp [ResponseWriter.setHeader, List.lookup]
    · simp only [serveStream, hw]
      rw [h.1]
      rfl
    · intro f fs
      rfl

/-- C8 at `twoSubscribers` (camera bound): two frames, then the client goes. -/
theorem stream_wire_format_witness :
    twoSubscribers.webcam ≠ none ∧
    (serveStream twoSubscribers freshWriter
      [SelectEvent.frame [255, 216], SelectEvent.frame [7], SelectEvent.disconnected]).body =
      bytesOf "--frame\r\nContent-Type: image/jpeg\r\n\r\n" ++ [255, 216] ++ bytesOf "\r\n" ++
      bytesOf "--frame\r\nContent-Type: image/jpeg\r\n\r\n" ++ [7] ++ bytesOf "\r\n" := by
  refine ⟨by decide, ?_⟩
  have h := (stream_wire_format twoSubscribers freshWriter
    [SelectEvent.frame [255, 216], SelectEvent.frame [7], SelectEvent.disconnected]
    (by decide) (by decide)).2.1
  rw [h]
  decide

/-! ## C9: the recorded error after a failed and a successful tick -/

/-- C9 as stated fails: camera opened, server started, one tick fails to read,
the next tick reads and encodes frame `[1]`. The error of the failed tick is
still recorded and the health handler still reports it. -/
theorem error_survives_successful_tick :
    ∃ s, run NewStreamServer
        [Op.openCamera 0 none, Op.start 0, Op.loopBind 0, Op.tick 0 Capture.readFail,
         Op.tick 0 (Capture.encoded [1])] = some s ∧
      s.frame = some [1] ∧
      s.webcamErr = some "failed to read frame from webcam" ∧
      health s = Health.error "failed to read frame from webcam" := by
  refine ⟨_, rfl, rfl, rfl, rfl⟩

/-- The broadcast loop never writes `webcamErr`. -/
theorem broadcastLoop_webcamErr (f : Frame) (cs : List Nat) : ∀ (s s1 : StreamServer),
    broadcastLoop f cs s = some s1 → s1.webcamErr = s.webcamErr := by
  induction cs with
  | nil =>
    intro s s1 h
    simp only [broadcastLoop, Option.some.injEq] at h
    subst h; rfl
  | cons c rest ih =>
    intro s s1 h
    simp only [broadcastLoop] at h
    cases hch : s.chans[c]? with
    | none => simp [hch] at h
    | some ch =>
      simp only [hch] at h
      cases hts : ch.trySend f with
      | none => simp [hts] at h
      | some o =>
        cases o with
        | some ch1 =>
          simp only [hts] at h
          exact ih { s with chans := s.chans.set c ch1 } s1 h
        | none =>
          simp only [hts] at h
          cases hcl : ch.close with
          | none => simp [hcl] at h
          | some ch1 =>
            simp only [hcl] at h
            exact ih { s with clients := mapDelete s.clients c, chans := s.chans.set c ch1 } s1 h

theorem broadcastFrame_webcamErr (s s1 : StreamServer) (h : broadcastFrame s = some s1) :
    s1.webcamErr = s.webcamErr := by
  unfold broadcastFrame at h
  cases hf : s.frame with
  | none =>
    simp only [hf, Option.some.injEq] at h
    subst h; rfl
  | some f =>
    simp only [hf] at h
    split at h
    · simp only [Option.some.injEq] at h
      subst h; rfl
    · exact broadcastLoop_webcamErr f s.clients s s1 h

theorem Stop_webcamErr (s s1 : StreamServer) (h : Stop s = some s1) :
    s1.webcamErr = s.webcamErr := by
  unfold Stop at h
  cases hr : s.isRunning with
  | false =>
    simp [hr] at h
    subst h; rfl
  | true =>
    simp only [hr, Bool.not_true, Bool.false_eq_true, if_false] at h
    cases hc : closeAll s.clients s.chans with
    | none => simp [hc] at h
    | some chans1 =>
      simp only [hc, Option.some.injEq] at h
      subst h; rfl

theorem Start_webcamErr (s s1 : StreamServer) (ctx : Nat) (h : Start s ctx = some s1) :
    s1.webcamErr = s.webcamErr := by
  unfold Start at h
  cases hr : s.isRunning with
  | true =>
    simp [hr] at h
    subst h; rfl
  | false =>
    simp only [hr] at h
    cases hb : s.sigs[s.bound]? with
    | none => simp [hb] at h
    | some b =>
      cases b with
      | true => simp [hb] at h
      | false =>
        simp [hb] at h
        subst h; rfl

theorem removeClient_webcamErr (s s1 : StreamServer) (c : Nat)
    (h : removeClient s c = some s1) : s1.webcamErr = s.webcamErr := by
  unfold removeClient at h
  by_cases hc : c ∈ s.clients
  · simp only [hc, if_true] at h
    cases hch : s.chans[c]? with
    | none => simp [hch] at h
    | some ch =>
      cases hcl : ch.close with
      | none => simp [hch, hcl] at h
      | some ch1 =>
        simp only [hch, hcl, Option.some.injEq] at h
        subst h; rfl
  · simp only [hc, if_false, Option.some.injEq] at h
    subst h; rfl

/-- A capture tick never clears a recorded error: it keeps it or replaces it by
another one. -/
theorem captureTick_keeps_error (s s1 : StreamServer) (r : Capture)
    (h : captureTick s r = some s1) (he : s.webcamErr ≠ none) : s1.webcamErr ≠ none := by
  unfold captureTick at h
  cases hw : s.webcam with
  | none =>
    simp only [hw, Option.some.injEq] at h
    subst h; exact he
  | some d =>
    simp only [hw] at h
    cases r with
    | readFail =>
      simp only [Option.some.injEq] at h
      subst h; simp
    | encodeFail e =>
      simp only [Option.some.injEq] at h
      subst h; simp
    | encoded bytes =>
      simp only [publish] at h
      rw [broadcastFrame_webcamErr _ s1 h]
      exact he

theorem loopBind_webcamErr (s : StreamServer) (i : Nat) :
    (loopBind s i).webcamErr = s.webcamErr := by
  unfold loopBind setPhase
  split
  · split <;> rfl
  · split <;> rfl
  · rfl

theorem loopExit_webcamErr (s : StreamServer) (i : Nat) :
    (loopExit s i).webcamErr = s.webcamErr := by
  unfold loopExit setPhase captureExit
  split
  · split <;> rfl
  · rfl

theorem recvStep_webcamErr (s : StreamServer) (c : Nat) :
    (recvStep s c).webcamErr = s.webcamErr := by
  unfold recvStep
  split
  · rfl
  · split <;> rfl

/-- No event other than a successful `OpenCamera` clears a recorded error. -/
theorem step_keeps_error (s s1 : StreamServer) (op : Op) (h : step s op = some s1)
    (he : s.webcamErr ≠ none) (hop : ∀ dev, op ≠ Op.openCamera dev none) :
    s1.webcamErr ≠ none := by
  cases op with
  | addClient =>
    obtain ⟨s2, hrun, _, _, hsame⟩ := addClient_spec s
    simp only [step, hrun, Option.map_some', Option.some.injEq] at h
    subst h
    rw [hsame.2.2.2.1]; exact he
  | removeClient c =>
    rw [removeClient_webcamErr s s1 c h]; exact he
  | broadcastFrame =>
    rw [broadcastFrame_webcamErr s s1 h]; exact he
  | stop =>
    rw [Stop_webcamErr s s1 h]; exact he
  | start ctx =>
    rw [Start_webcamErr s s1 ctx h]; exact he
  | openCamera d res =>
    cases res with
    | none => exact absurd rfl (hop d)
    | some e =>
      simp only [step, OpenCamera, Option.some.injEq] at h
      subst h; simp
  | tick i r =>
    simp only [step] at h
    split at h
    · exact captureTick_keeps_error s s1 r h he
    · simp only [Option.some.injEq] at h
      subst h; exact he
  | recv c =>
    simp only [step, Option.some.injEq] at h
    subst h
    rw [recvStep_webcamErr]; exact he
  | cancel ctx =>
    simp only [step, Option.some.injEq] at h
    subst h; exact he
  | loopBind i =>
    simp only [step, Option.some.injEq] at h
    subst h
    rw [loopBind_webcamErr]; exact he
  | loopExit i =>
    simp only [step, Option.some.injEq] at h
    subst h
    rw [loopExit_webcamErr]; exact he

/-- Along any sequence of events without a successful `OpenCamera`, a recorded
error stays recorded. -/
theorem run_keeps_error (ops : List Op) : ∀ (s s1 : StreamServer),
    run s ops = some s1 → s.webcamErr ≠ none →
    (∀ dev, Op.openCamera dev none ∉ ops) → s1.webcamErr ≠ none := by
  induction ops with
  | nil =>
    intro s s1 h he _
    simp only [run, Option.some.injEq] at h
    subst h; exact he
  | cons op rest ih =>
    intro s s1 h he hno
    simp only [run] at h
    cases hs : step s op with
    | none => simp [hs] at h
    | some s2 =>
      simp only [hs] at h
      have hop : ∀ dev, op ≠ Op.openCamera dev none :=
        fun dev e => hno dev (by rw [e]; exact List.mem_cons_self _ _)
      exact ih s2 s1 h (step_keeps_error s s2 op hs he hop)
        (fun dev hm => hno dev (List.mem_cons_of_mem _ hm))

/-- C9, amended. With a camera bound and the registry well formed, a tick that
fails to read records the error and broadcasts nothing; the next tick, which
reads and encodes a frame, publishes it and leaves the recorded error as it is,
so a running server still reports that error in its health status. A
successful `OpenCamera` clears the error, and nothing else does: in any state
with an error recorded, an event after which no error is recorded is a
successful `OpenCamera`; and after any further sequence of events without a
successful `OpenCamera` an error is still recorded, which the health handler
reports whenever the server is running. -/
theorem error_is_sticky (s : StreamServer) (d : Nat) (bytes : Frame)
    (hcam : s.webcam = some d) (hwf : wf s) (hrunning : s.isRunning = true) :
    ∃ s1 s2, captureTick s Capture.readFail = some s1 ∧
      s1.webcamErr = some "failed to read frame from webcam" ∧
      s1.chans = s.chans ∧ s1.clients = s.clients ∧ s1.frame = s.frame ∧
      captureTick s1 (Capture.encoded bytes) = some s2 ∧
      s2.frame = some bytes ∧
      s2.webcamErr = some "failed to read frame from webcam" ∧
      health s2 = Health.error "failed to read frame from webcam" ∧
      (∀ dev, (OpenCamera s2 dev none).1.webcamErr = none) ∧
      (∀ (t t1 : StreamServer) (op : Op), step t op = some t1 → t.webcamErr ≠ none →
         t1.webcamErr = none → ∃ dev, op = Op.openCamera dev none) ∧
      (∀ (ops : List Op) (s3 : StreamServer), run s2 ops = some s3 →
         (∀ dev, Op.openCamera dev none ∉ ops) →
         s3.webcamErr ≠ none ∧
         (s3.isRunning = true → ∃ e, s3.webcamErr = some e ∧ health s3 = Health.error e)) := by
  have hwf1 : wf { s with webcamErr := some "failed to read frame from webcam" } := hwf
  obtain ⟨s2, hp, _, _, _, _, hfr, _, herr, hrn, _⟩ :=
    publish_spec { s with webcamErr := some "failed to read frame from webcam" } bytes hwf1
  refine ⟨{ s with webcamErr := some "failed to read frame from webcam" }, s2,
    by simp [captureTick, hcam], rfl, rfl, rfl, rfl, ?_, hfr, herr, ?_, fun _ => rfl, ?_, ?_⟩
  · simp only [captureTick, hcam]
    simpa only [hcam] using hp
  · simp only [health, hrn, herr, hrunning]
    rfl
  · intro t t1 op hstep he hnone
    by_contra hno
    exact step_keeps_error t t1 op hstep he
      (fun dev e => hno ⟨dev, e⟩) hnone
  · intro ops s3 hrun hno
    have he3 : s3.webcamErr ≠ none :=
      run_keeps_error ops s2 s3 hrun (by rw [herr]; simp) hno
    refine ⟨he3, fun hr3 => ?_⟩
    cases h3 : s3.webcamErr with
    | none => exact absurd h3 he3
    | some e => exact ⟨e, rfl, by simp [health, hr3, h3]⟩

/-- C9 amended, at `twoSubscribers` once started: the error survives the
successful tick, and every later run without a successful `OpenCamera`. -/
theorem error_is_sticky_witness :
    ∃ s1 s2, captureTick { twoSubscribers with isRunning := true } Capture.readFail = some s1 ∧
      captureTick s1 (Capture.encoded [8]) = some s2 ∧
      s2.webcamErr = some "failed to read frame from webcam" ∧
      health s2 = Health.error "failed to read frame from webcam" ∧
      ∀ s3, run s2 [Op.stop, Op.start 3, Op.loopBind 0, Op.cancel 3, Op.loopExit 0] = some s3 →
        s3.webcamErr ≠ none := by
  obtain ⟨s1, s2, h1, _, _, _, _, h2, _, h3, h4, _, _, h6⟩ :=
    error_is_sticky { twoSubscribers with isRunning := true } 0 [8] rfl (by decide) rfl
  refine ⟨s1, s2, h1, h2, h3, h4, fun s3 hr3 => (h6 _ s3 hr3 ?_).1⟩
  intro dev hm
  simp at hm

/-! ## C4 and C10: the start/stop lifecycle -/

/-- C4 fails on the code: `Start`, then `Stop`, then `Start` again, with no
context cancelled. `Stop` clears `isRunning` but does not end the first capture
goroutine, so the second `Start` launches another one: two goroutines are
inside the capture loop at the same time. -/
theorem restart_runs_two_loops :
    ∃ s, run NewStreamServer
        [Op.start 0, Op.loopBind 0, Op.stop, Op.start 1, Op.loopBind 1] = some s ∧
      s.cancelled = [] ∧
      loopRunning s 0 = true ∧ loopRunning s 1 = true ∧
      activeLoops s = 2 := by
  refine ⟨_, rfl, rfl, rfl, rfl, rfl⟩

/-- C10 fails on the code: `Start`, the context is cancelled, the capture
goroutine returns and clears `isRunning`; `s.bound` is still the channel the
first `Start` closed, and the next `Start` closes it again: a panic. -/
theorem Start_after_loop_exit_panics :
    ∃ s, run NewStreamServer
        [Op.start 0, Op.loopBind 0, Op.cancel 0, Op.loopExit 0] = some s ∧
      s.isRunning = false ∧ activeLoops s = 0 ∧
      s.sigs[s.bound]? = some true ∧
      Start s 1 = none := by
  refine ⟨_, rfl, rfl, rfl, rfl, rfl⟩

end GoWebCam
